import Mathlib

/-!
# Verification of `utils/write.go`

A shallow embedding of `utils/write.go`: the snippet splicer (`WriteSnippet`,
`findConfiguration`, `offsetCounter.ScanLines`), the confirmed writer
(`WriteFile`) and `AppendNewLine`, together with the parts of the Go standard
library they run on (`bufio.ScanLines`, `bufio.Scanner`, slice expressions,
`time.Format`, `ioutil.WriteFile`).

Byte slices and strings are lists of bytes, `int64` offsets are integers (they
are bounded by the length of a buffer held in memory, so they never wrap), and
the file named by `filename` is an explicit state that every operation
transforms. The umask of the process and the calls to the operating system
that fail are a parameter of `WriteFile` and of `WriteSnippet`, the operations
on the open file that fail are one of `AppendNewLine`. What `utils/write.go` calls and does not define (the force flag,
the prompt, the file returned by `OpenFile`) is a parameter or a definition
marked as modelled from the specification.
-/

namespace Utils

/-! ## Bytes and strings -/

/-- One byte of a Go `[]byte` or `string`. -/
abbrev Byte := UInt8

/-- The bytes of a Go string literal (its UTF-8 encoding). -/
def bytesOf (s : String) : List Byte :=
  s.toList.flatMap String.utf8EncodeChar

/-- The line feed `'\n'`. -/
def LF : Byte := 10

/-- The carriage return `'\r'`. -/
def CR : Byte := 13

/-- The header of a step generated snippet: `SnippetHeader`. -/
def SnippetHeader : List Byte := bytesOf "# autogenerated by step"

/-- The footer of a step generated snippet: `SnippetFooter`. -/
def SnippetFooter : List Byte := bytesOf "# end"

/-- The function `strings.HasPrefix(s, p)`. -/
def HasPrefix (s p : List Byte) : Bool := p.isPrefixOf s

/-- The function `bytes.HasSuffix(s, p)`. -/
def HasSuffix (s p : List Byte) : Bool := p.isSuffixOf s

/-- The function `bytes.IndexByte(data, c)`: index of the first `c`, if any. -/
def IndexByte : List Byte → Byte → Option Nat
  | [], _ => none
  | b :: bs, c => if b = c then some 0 else (IndexByte bs c).map (· + 1)

/-! ## `bufio.ScanLines` and the scanner -/

/-- The helper `dropCR` of `bufio`: drops one terminal `'\r'`. -/
def dropCR (data : List Byte) : List Byte :=
  if data.getLast? = some CR then data.dropLast else data

/-- The split function `bufio.ScanLines`: the number of bytes to advance and the
token, `none` for a nil token (no token yet, or nothing left). -/
def bufioScanLines (data : List Byte) (atEOF : Bool) : Nat × Option (List Byte) :=
  if atEOF && data.isEmpty then (0, none)
  else
    match IndexByte data LF with
    | some i => (i + 1, some (dropCR (data.take i)))
    | none => if atEOF then (data.length, some (dropCR data)) else (0, none)

/-- The type `offsetCounter`. -/
structure offsetCounter where
  offset : Int
  deriving DecidableEq, Repr

/-- The method `offsetCounter.ScanLines`: `bufio.ScanLines`, adding the advance
to the counter. The updated counter is returned with the result. -/
def offsetCounter.ScanLines (o : offsetCounter) (data : List Byte) (atEOF : Bool) :
    offsetCounter × Nat × Option (List Byte) :=
  let r := bufioScanLines data atEOF
  ({ offset := o.offset + (r.1 : Int) }, r.1, r.2)

/-- The constant `bufio.MaxScanTokenSize`: the size the buffer of a
`bufio.Scanner` grows to, and no further. -/
def MaxScanTokenSize : Nat := 64 * 1024

/-- One call of `scanner.Scan()` for a scanner made by `bufio.NewScanner` over a
`bytes.Reader` holding `rest`, split by `counter.ScanLines`.

The scanner hands the split function the unread bytes it has buffered, from the
start of the next token on and at most `MaxScanTokenSize` of them, and it
reports `atEOF` only after a read into free room of the buffer has hit the end
of the reader, that is when fewer than `MaxScanTokenSize` bytes were left. Calls
of the split function that return no token advance by zero and leave the
counter alone, so one call on the last window stands for all of them. The
result is `none` when `Scan` returns false: at the end of the input, or with
`ErrTooLong` when the buffer is full and holds no line feed (`findConfiguration`
does not look at `scanner.Err()`, so both end its loop alike). Otherwise it is
the counter, the token and the unread input. -/
def Scan (counter : offsetCounter) (rest : List Byte) :
    Option (offsetCounter × List Byte × List Byte) :=
  let r := counter.ScanLines (rest.take MaxScanTokenSize)
    (decide (rest.length < MaxScanTokenSize))
  match r.2.2 with
  | none => none
  | some token => some (r.1, token, rest.drop r.2.1)

/-- The scanner run over an input the way the loop `for scanner.Scan()` of
`findConfiguration` runs it: for every line `Scan` yields, its text and the value
of `counter.offset` at that point; then the counter and the unread input once
`Scan` returns false. `fuel` bounds the number of lines; more than the length
of the input is enough (`scanAll_fuel`). -/
def scanAll : Nat → offsetCounter → List Byte →
    List (List Byte × Int) × offsetCounter × List Byte
  | 0, counter, rest => ([], counter, rest)
  | fuel + 1, counter, rest =>
    match Scan counter rest with
    | none => ([], counter, rest)
    | some (counter', line, rest') =>
      let r := scanAll fuel counter' rest'
      ((line, counter'.offset) :: r.1, r.2.1, r.2.2)

/-! ## `findConfiguration` -/

/-- The loop `for scanner.Scan() { ... }` of `findConfiguration`, with the
variables `inConfig`, `lines` and `start`; `fuel` bounds the number of rounds. -/
def findConfigurationLoop : Nat → List Byte → offsetCounter → Bool →
    List (List Byte) → Int → List (List Byte) × Int × Int
  | 0, _, counter, _, lines, _ => (lines, counter.offset, counter.offset)
  | fuel + 1, rest, counter, inConfig, lines, start =>
    match Scan counter rest with
    | none => (lines, counter.offset, counter.offset)
    | some (counter', line, rest') =>
      if !inConfig && HasPrefix line SnippetHeader then
        findConfigurationLoop fuel rest' counter' true lines
          (counter'.offset - ((line.length + 1 : Nat) : Int))
      else if inConfig && HasPrefix line SnippetFooter then
        (lines, start, counter'.offset)
      else if inConfig then
        findConfigurationLoop fuel rest' counter' inConfig (lines ++ [line]) start
      else
        findConfigurationLoop fuel rest' counter' inConfig lines start

/-- The function `findConfiguration` on a reader over `b`: the lines of the
previous snippet, `start` and `end`. Every round of the loop consumes at least
one byte, so `b.length + 1` rounds are enough (`findConfigurationLoop_fuel`). -/
def findConfiguration (b : List Byte) : List (List Byte) × Int × Int :=
  findConfigurationLoop (b.length + 1) b { offset := 0 } false [] 0

/-! ## The clock and the file -/

/-- The value of `time.Now().UTC()`, by its calendar fields. -/
structure Time where
  year : Nat
  month : Nat
  day : Nat
  hour : Nat
  minute : Nat
  second : Nat
  deriving DecidableEq, Repr

/-- The ASCII digit of `n % 10`. -/
def digit (n : Nat) : Byte := UInt8.ofNat (48 + n % 10)

/-- The decimal digits of `n`, most significant first, at most `fuel` of them. -/
def decimalAux : Nat → Nat → List Byte
  | 0, _ => []
  | fuel + 1, n => if n < 10 then [digit n] else decimalAux fuel (n / 10) ++ [digit n]

/-- The helper `appendInt` of `time` for a field that is not negative: `n` in
decimal, zero-padded to `width`. A Go `int` has at most 19 digits, and 20 are
computed here. -/
def appendInt (n width : Nat) : List Byte :=
  let ds := decimalAux 20 n
  List.replicate (width - ds.length) (digit 0) ++ ds

/-- The call `t.Format(time.RFC3339)` for a UTC time: `2006-01-02T15:04:05Z`. -/
def RFC3339 (t : Time) : List Byte :=
  appendInt t.year 4 ++ bytesOf "-" ++ appendInt t.month 2 ++ bytesOf "-" ++
    appendInt t.day 2 ++ bytesOf "T" ++ appendInt t.hour 2 ++ bytesOf ":" ++
    appendInt t.minute 2 ++ bytesOf ":" ++ appendInt t.second 2 ++ bytesOf "Z"

/-- The bytes a time stamp is made of. -/
def stampBytes : List Byte :=
  [48, 49, 50, 51, 52, 53, 54, 55, 56, 57] ++ bytesOf "-T:Z"

/-- A permission mode, `os.FileMode`. -/
abbrev FileMode := Nat

/-- What a path names when it exists. -/
inductive Node where
  | file (content : List Byte) (mode : FileMode)
  | dir (mode : FileMode)
  deriving DecidableEq, Repr

/-- The state of the path `filename`: `none` when it does not exist. -/
abbrev FS := Option Node

/-- The content of the regular file at the path, if there is one. -/
def FS.content : FS → Option (List Byte)
  | some (Node.file c _) => some c
  | _ => none

/-- How a call ends: with a nil error, with an error value, or in a run-time
panic of a slice expression out of range. -/
inductive Result where
  | ok
  | fileError
  | panic
  deriving DecidableEq, Repr

/-- The slice expression `b[:hi]` with an `int64` bound; `none` is the run-time
panic "slice bounds out of range". The bound is checked against `len(b)`. -/
def sliceTo (b : List Byte) (hi : Int) : Option (List Byte) :=
  if 0 ≤ hi ∧ hi ≤ (b.length : Int) then some (b.take hi.toNat) else none

/-- The slice expression `b[lo:]` with an `int64` bound; `none` is the panic. -/
def sliceFrom (b : List Byte) (lo : Int) : Option (List Byte) :=
  if 0 ≤ lo ∧ lo ≤ (b.length : Int) then some (b.drop lo.toNat) else none

/-- The line `fmt.Sprintf("%s @ %s\n", SnippetHeader, now.Format(time.RFC3339))`. -/
def headerLine (now : Time) : List Byte :=
  SnippetHeader ++ bytesOf " @ " ++ RFC3339 now ++ [LF]

/-- The bytes `WriteSnippet` writes for the snippet itself: the header line, the
data, a line feed unless the data ends in one, and the footer line. -/
def snippetBlock (data : List Byte) (now : Time) : List Byte :=
  headerLine now ++ data ++ (if HasSuffix data [LF] then [] else [LF]) ++
    (SnippetFooter ++ [LF])

/-! ## Lines of a content, as the specification speaks of them -/

/-- The content made of the given lines, each followed by one line feed. -/
def joinLines : List (List Byte) → List Byte
  | [] => []
  | l :: ls => l ++ LF :: joinLines ls

/-- The lines of a content: it is cut after every line feed, and what follows
the last line feed is a line when it is not empty. The line feeds are dropped. -/
def splitLines : List Byte → List (List Byte)
  | [] => []
  | c :: cs =>
    if c = LF then [] :: splitLines cs
    else
      match splitLines cs with
      | [] => [[c]]
      | l :: ls => (c :: l) :: ls

/-- The offsets just after the lines of a content whose first byte is at offset
`pos`: after the line feed of every line that has one, and the end of the
content for a last line that has none. -/
def lineEnds : Nat → List Byte → List Nat
  | _, [] => []
  | pos, c :: cs =>
    if c = LF then (pos + 1) :: lineEnds (pos + 1) cs
    else if cs = [] then [pos + 1]
    else lineEnds (pos + 1) cs

/-- The number of lines of a content that start with `p`. -/
def countLines (p b : List Byte) : Nat :=
  (splitLines b).countP fun l => HasPrefix l p

/-- The snippet as the wire format of the specification writes it: the header
prefix, ` @ `, the RFC 3339 time stamp and a line feed, then the data with a
line feed added unless its last byte is one, then the footer line. -/
def wireFormat (data : List Byte) (t : Time) : List Byte :=
  bytesOf "# autogenerated by step @ " ++ RFC3339 t ++ bytesOf "\n" ++ data ++
    (if data.getLast? = some LF then [] else bytesOf "\n") ++ bytesOf "# end\n"

/-- A line as a claim about a well-formed file wants it: no line feed in it
(it is one line) and shorter than the buffer of the scanner. -/
def scannable (l : List Byte) : Prop :=
  LF ∉ l ∧ l.length < MaxScanTokenSize

instance (l : List Byte) : Decidable (scannable l) := by
  unfold scannable
  infer_instance

/-- A content without a header line, all of whose lines the scanner can buffer. -/
def noHeader (prior : List Byte) : Prop :=
  ∀ l ∈ splitLines prior, l.length < MaxScanTokenSize ∧ HasPrefix l SnippetHeader = false

instance (prior : List Byte) : Decidable (noHeader prior) := by
  unfold noHeader
  infer_instance

/-- A content with one well-formed snippet in it: the lines `pre` without a
header, the header line `h` with no carriage return in it, the lines `body`
without a footer, the footer line `f` with its line feed, and then `post`,
whatever it is. Every line up to the footer is one the scanner can buffer. -/
def hasBlock (prior : List Byte) (pre body : List (List Byte)) (h f post : List Byte) : Prop :=
  prior = joinLines pre ++ (h ++ LF :: (joinLines body ++ (f ++ LF :: post))) ∧
    (∀ l ∈ pre, scannable l ∧ HasPrefix l SnippetHeader = false) ∧
    (scannable h ∧ CR ∉ h ∧ HasPrefix h SnippetHeader = true) ∧
    (∀ l ∈ body, scannable l ∧ HasPrefix l SnippetFooter = false) ∧
    (scannable f ∧ HasPrefix f SnippetFooter = true)

instance (prior : List Byte) (pre body : List (List Byte)) (h f post : List Byte) :
    Decidable (hasBlock prior pre body h f post) := by
  unfold hasBlock
  infer_instance

/-! ## Errors, events and the collaborators of `WriteFile` -/

/-- The cause of a failed operation on a file, as far as the model tells causes
apart: an error number of the operating system, or the end of the file. -/
inductive OSError where
  | ENOENT
  | EISDIR
  | EINVAL
  | EACCES
  | EIO
  | EOF
  deriving DecidableEq, Repr

/-- An `error` value. -/
inductive Error where
  /-- The value `errors.New(msg)`. -/
  | new (msg : String)
  /-- The `*os.PathError` an operation of `os` or `ioutil` returns. -/
  | pathError (cause : OSError)
  /-- The value `errs.FileError(err, filename)`: the cause with the path. -/
  | fileError (cause : OSError)
  /-- An error of the prompt, whatever `ui.Prompt` reports. -/
  | promptError (code : Nat)
  /-- The value `errors.Wrapf(err, "error reading information for %s", filename)`. -/
  | wrapf (cause : OSError)
  deriving DecidableEq, Repr

/-- The error returned if a file exists: `ErrFileExists`. -/
def ErrFileExists : Error := Error.new "file exists"

/-- The error returned if the file is a directory: `ErrIsDir`. -/
def ErrIsDir : Error := Error.new "file is a directory"

/-- What a call does that can be seen from outside: it asks the operator, it
calls `ioutil.WriteFile`, or it calls `OpenFile` with a permission. -/
inductive Event where
  | prompt (msg : String)
  | writeFile (data : List Byte) (perm : FileMode)
  | openFile (perm : FileMode)
  deriving DecidableEq, Repr

/-- What `WriteFile` calls and `utils/write.go` does not define, taken as it
comes: the force flag `command.IsForce()`, the prompt
`ui.Prompt(msg, ui.WithValidateYesNo())` with the answer or the error it
returns for a message, and the functions `strings.TrimSpace` and
`strings.ToLower`, whose Unicode tables are left out: the theorems hold
whatever these two functions are. -/
structure Env where
  IsForce : Bool
  Prompt : String → Except Error String
  TrimSpace : String → String
  ToLower : String → String

/-! ## The open file and `AppendNewLine` -/

/-- The operations on the open file that fail when `AppendNewLine` tries them,
each with its cause; `none` for an operation that works. -/
structure Faults where
  stat : Option OSError
  seek : Option OSError
  read : Option OSError
  deriving DecidableEq, Repr

/-- No operation fails. -/
def noFaults : Faults := ⟨none, none, none⟩

/-- Modelled from the spec: the type `File` that `OpenFile` returns, which is
not in `utils/write.go`. It is the thin file primitive of the specification
(stat, open, write, close) around an `os.File`: the bytes and the mode of the
file, the offset of the next read, and the first error one of its methods has
met. Any error is surfaced: once an error is recorded the later reads and
writes are not applied, and `Close` returns that error. -/
structure File where
  content : List Byte
  mode : FileMode
  offset : Nat
  err : Option Error
  deriving DecidableEq, Repr

/-- Modelled from the spec: the function `OpenFile(name, flag, perm)` with
`O_CREATE` in the flags, as both callers have it: the file is created with
`perm` if absent, emptied if `truncate` (`O_TRUNC`) is set, and a directory
is not opened; the failure is wrapped in a file error. -/
def OpenFile (fs : FS) (truncate : Bool) (perm : FileMode) : Except Error File :=
  match fs with
  | none => Except.ok ⟨[], perm, 0, none⟩
  | some (Node.file content mode) => Except.ok ⟨if truncate then [] else content, mode, 0, none⟩
  | some (Node.dir _) => Except.error (Error.fileError OSError.EISDIR)

/-- Modelled from the spec: the method `f.Seek(offset, whence)`, with `whence`
0, 1 or 2 for an offset from the start, from the current offset or from the
end of the file. -/
def File.Seek (f : File) (faults : Faults) (offset : Int) (whence : Nat) : File :=
  match f.err with
  | some _ => f
  | none =>
    match faults.seek with
    | some cause => { f with err := some (Error.fileError cause) }
    | none =>
      let base : Int :=
        if whence = 0 then 0 else if whence = 1 then (f.offset : Int) else (f.content.length : Int)
      if base + offset < 0 then { f with err := some (Error.fileError OSError.EINVAL) }
      else { f with offset := (base + offset).toNat }

/-- Modelled from the spec: the method `f.Read(b)` for a buffer `b` of one byte:
the file after the call and the buffer, which is left as it was when nothing
is read. -/
def File.Read (f : File) (faults : Faults) (b : Byte) : File × Byte :=
  match f.err with
  | some _ => (f, b)
  | none =>
    match faults.read with
    | some cause => ({ f with err := some (Error.fileError cause) }, b)
    | none =>
      match f.content.get? f.offset with
      | some c => ({ f with offset := f.offset + 1 }, c)
      | none => ({ f with err := some (Error.fileError OSError.EOF) }, b)

/-- Modelled from the spec: the methods `f.Write(b)` and `f.WriteString(s)` on a
file that only grows (it is open with `O_APPEND`, or it was emptied and is
written from its start). -/
def File.Write (f : File) (b : List Byte) : File :=
  match f.err with
  | some _ => f
  | none => { f with content := f.content ++ b }

/-- Modelled from the spec: the method `f.Close()`: the error recorded, if any,
and the file as it is left; the handle is released. -/
def File.Close (f : File) : Option Error × FS :=
  (f.err, some (Node.file f.content f.mode))

/-- The function `AppendNewLine` with the given faults: the error it returns and
the state of the path after the call. Every path through the function that
has opened the file ends in `f.Close()`. -/
def AppendNewLine (faults : Faults) (fs : FS) (data : List Byte) (perm : FileMode) :
    Option Error × FS :=
  match OpenFile fs false perm with
  | Except.error err => (some err, fs)
  | Except.ok f =>
    -- Read last character
    let f :=
      match faults.stat with
      | some _ => f
      | none =>
        if f.content.length ≠ 0 then
          let last : Byte := 0
          let f := f.Seek faults (-1) 2
          let r := f.Read faults last
          if r.2 ≠ LF then r.1.Write [LF] else r.1
        else f
    (f.Write data).Close

/-! ## The operating system, `WriteFile` and `WriteSnippet` -/

/-- What the operating system adds to the state of the path for one call of
`WriteFile` or `WriteSnippet`: the umask of the process, and for `os.Stat`, for
the read of the file and for its opening the cause with which the call fails
for a reason of its own, `none` when it does not (a directory on the path is
missing or cannot be searched, the process may not read or write the file).
Writes to a file that is open succeed. -/
structure OS where
  umask : Nat
  statErr : Option OSError
  readErr : Option OSError
  openErr : Option OSError
  deriving DecidableEq, Repr

/-- An operating system that lets every call through, with the given umask. -/
def OS.quiet (umask : Nat) : OS := ⟨umask, none, none, none⟩

/-- The mode a new file gets: the permission passed, less the bits of the umask. -/
def applyUmask (perm umask : FileMode) : FileMode := perm - (perm &&& umask)

/-- The function `os.IsNotExist(err)`. -/
def osIsNotExist (err : OSError) : Bool := err = OSError.ENOENT

/-- The value `os.Stat` returns for what exists: `Mode()` and `IsDir()`. -/
structure FileInfo where
  Mode : FileMode
  IsDir : Bool
  deriving DecidableEq, Repr

/-- The function `os.Stat(filename)`. -/
def osStat (os : OS) (fs : FS) : Except OSError FileInfo :=
  match os.statErr with
  | some cause => Except.error cause
  | none =>
    match fs with
    | none => Except.error OSError.ENOENT
    | some (Node.file _ mode) => Except.ok ⟨mode, false⟩
    | some (Node.dir mode) => Except.ok ⟨mode, true⟩

/-- The function `ioutil.ReadFile(filename)`. -/
def ioutilReadFile (os : OS) (fs : FS) : Except OSError (List Byte) :=
  match os.readErr with
  | some cause => Except.error cause
  | none =>
    match fs with
    | none => Except.error OSError.ENOENT
    | some (Node.file content _) => Except.ok content
    | some (Node.dir _) => Except.error OSError.EISDIR

/-- The function `os.OpenFile(name, flag, perm)` for flags with `O_CREATE`, and
with `O_TRUNC` if `truncate` is set: the content and the mode of the file once
it is open. A file that is absent is created with `perm` less the umask, a file
that exists keeps its mode whatever `perm` is, and a directory is not opened
for writing. -/
def osOpenFile (os : OS) (fs : FS) (truncate : Bool) (perm : FileMode) :
    Except OSError (List Byte × FileMode) :=
  match os.openErr with
  | some cause => Except.error cause
  | none =>
    match fs with
    | none => Except.ok ([], applyUmask perm os.umask)
    | some (Node.file content mode) => Except.ok (if truncate then [] else content, mode)
    | some (Node.dir _) => Except.error OSError.EISDIR

/-- The function `ioutil.WriteFile(filename, data, perm)`: the path is opened
with `O_WRONLY|O_CREATE|O_TRUNC`, the data is written and the file is closed.
When the file cannot be opened the error of the open is returned and nothing
has changed. -/
def ioutilWriteFile (os : OS) (fs : FS) (data : List Byte) (perm : FileMode) :
    Option Error × FS :=
  match osOpenFile os fs true perm with
  | Except.error cause => (some (Error.pathError cause), fs)
  | Except.ok f => (none, some (Node.file (f.1 ++ data) f.2))

/-- The function `WriteFile`: the error it returns (`none` for nil), the state
of the path after the call, and what the call did, in order. -/
def WriteFile (env : Env) (os : OS) (fs : FS) (filename : String) (data : List Byte)
    (perm : FileMode) : Option Error × FS × List Event :=
  if env.IsForce then
    ((ioutilWriteFile os fs data perm).1, (ioutilWriteFile os fs data perm).2,
      [Event.writeFile data perm])
  else
    match osStat os fs with
    | Except.error err =>
      if osIsNotExist err then
        ((ioutilWriteFile os fs data perm).1, (ioutilWriteFile os fs data perm).2,
          [Event.writeFile data perm])
      else (some (Error.wrapf err), fs, [])
    | Except.ok st =>
      if st.IsDir then (some ErrIsDir, fs, [])
      else
        match env.Prompt ("Would you like to overwrite " ++ filename ++ " [y/n]") with
        | Except.error err =>
          (some err, fs, [Event.prompt ("Would you like to overwrite " ++ filename ++ " [y/n]")])
        | Except.ok str =>
          if env.ToLower (env.TrimSpace str) = "y" ∨ env.ToLower (env.TrimSpace str) = "yes" then
            ((ioutilWriteFile os fs data perm).1, (ioutilWriteFile os fs data perm).2,
              [Event.prompt ("Would you like to overwrite " ++ filename ++ " [y/n]"),
                Event.writeFile data perm])
          else if env.ToLower (env.TrimSpace str) = "n" ∨
              env.ToLower (env.TrimSpace str) = "no" then
            (some ErrFileExists, fs,
              [Event.prompt ("Would you like to overwrite " ++ filename ++ " [y/n]")])
          else
            ((ioutilWriteFile os fs data perm).1, (ioutilWriteFile os fs data perm).2,
              [Event.prompt ("Would you like to overwrite " ++ filename ++ " [y/n]"),
                Event.writeFile data perm])

/-- The function `WriteSnippet` from "Detect previous configuration" on, with
the prior content `b` and the permission in `perm`: the search, the call of
`OpenFile` with `O_WRONLY|O_TRUNC|O_CREATE` and `perm`, which is `os.OpenFile`
behind the file primitive of the package, and the writes to the file it has
emptied. A failure to open ends the call with a file error and the path as it
was. A slice expression out of range ends the call in a panic, with the file
left as written so far. -/
def WriteSnippet.replace (os : OS) (fs : FS) (data : List Byte) (perm : FileMode) (now : Time)
    (b : List Byte) : Result × FS × List Event :=
  -- Detect previous configuration
  let r := findConfiguration b
  let start := r.2.1
  let «end» := r.2.2
  -- Replace previous configuration
  match osOpenFile os fs true perm with
  | Except.error _ => (Result.fileError, fs, [Event.openFile perm])
  | Except.ok opened =>
    let f : List Byte := opened.1
    let f? : Option (List Byte) :=
      if b.length > 0 then
        (sliceTo b start).map fun p => f ++ p ++ (if start = «end» then [LF] else [])
      else some f
    match f? with
    | none => (Result.panic, some (Node.file f opened.2), [Event.openFile perm])
    | some f =>
      let f := f ++ snippetBlock data now
      if b.length > 0 then
        match sliceFrom b «end» with
        | none => (Result.panic, some (Node.file f opened.2), [Event.openFile perm])
        | some tail => (Result.ok, some (Node.file (f ++ tail) opened.2), [Event.openFile perm])
      else (Result.ok, some (Node.file f opened.2), [Event.openFile perm])

/-- The function `WriteSnippet` from "Read file contents" on, with the
permission in `perm`: a file that does not exist is read as empty, any other
failure of the read ends the call with a file error. -/
def WriteSnippet.read (os : OS) (fs : FS) (data : List Byte) (perm : FileMode) (now : Time) :
    Result × FS × List Event :=
  match ioutilReadFile os fs with
  | Except.ok b => WriteSnippet.replace os fs data perm now b
  | Except.error err =>
    if osIsNotExist err then WriteSnippet.replace os fs data perm now []
    else (Result.fileError, fs, [])

/-- The function `WriteSnippet` at clock value `now`, with what it calls: the
way it ends, the state of the path after the call, and its calls of `OpenFile`.
It starts with "Get file permissions": the mode of the path replaces `perm`
when `os.Stat` finds the path, `perm` is kept when the path does not exist, and
any other failure of `os.Stat` ends the call with a file error. -/
def WriteSnippetRun (os : OS) (fs : FS) (data : List Byte) (perm : FileMode) (now : Time) :
    Result × FS × List Event :=
  match osStat os fs with
  | Except.ok st => WriteSnippet.read os fs data st.Mode now
  | Except.error err =>
    if osIsNotExist err then WriteSnippet.read os fs data perm now
    else (Result.fileError, fs, [])

/-- The function `WriteSnippet`: the way it ends and the state of the path
after the call. -/
def WriteSnippet (os : OS) (fs : FS) (data : List Byte) (perm : FileMode) (now : Time) :
    Result × FS :=
  ((WriteSnippetRun os fs data perm now).1, (WriteSnippetRun os fs data perm now).2.1)

/-- The white space of ASCII, as `unicode.IsSpace` has it. -/
def isAsciiSpace (c : Char) : Bool :=
  c = ' ' || c = '\t' || c = '\n' || c = '\x0b' || c = '\x0c' || c = '\r'

/-- The function `strings.TrimSpace` on a string of ASCII characters. -/
def asciiTrimSpace (s : String) : String :=
  String.mk (((s.data.dropWhile isAsciiSpace).reverse.dropWhile isAsciiSpace).reverse)

/-- The function `strings.ToLower` on a string of ASCII characters. -/
def asciiToLower (s : String) : String :=
  String.mk (s.data.map Char.toLower)

/-- A prompt that answers with `answer`, force mode off. -/
def answering (answer : String) : Env :=
  ⟨false, fun _ => Except.ok answer, asciiTrimSpace, asciiToLower⟩

/-! ## Inputs the theorems are evaluated at -/

/-- A line of 70000 bytes `a`, more than the scanner buffers. -/
def longLine : List Byte := List.replicate 70000 97

/-- A clock value: 2024-01-02T03:04:05Z. -/
def clock : Time := ⟨2024, 1, 2, 3, 4, 5⟩

/-- A later clock value: 2024-01-02T03:04:06Z. -/
def laterClock : Time := ⟨2024, 1, 2, 3, 4, 6⟩

/-! ## Lemmas on the scanner -/

theorem IndexByte_of_not_mem (l : List Byte) (c : Byte) (h : c ∉ l) : IndexByte l c = none := by
  induction l with
  | nil => rfl
  | cons a l ih =>
    simp only [List.mem_cons, not_or] at h
    simp [IndexByte, ih h.2, Ne.symm h.1]

theorem IndexByte_append_cons (l r : List Byte) (c : Byte) (h : c ∉ l) :
    IndexByte (l ++ c :: r) c = some l.length := by
  induction l with
  | nil => simp [IndexByte]
  | cons a l ih =>
    simp only [List.mem_cons, not_or] at h
    simp [IndexByte, ih h.2, Ne.symm h.1]

theorem IndexByte_some (l : List Byte) (c : Byte) (i : Nat) (h : IndexByte l c = some i) :
    ∃ r, l = l.take i ++ c :: r ∧ c ∉ l.take i ∧ i < l.length := by
  induction l generalizing i with
  | nil => simp [IndexByte] at h
  | cons a l ih =>
    by_cases hac : a = c
    · subst hac
      simp [IndexByte] at h
      subst h
      exact ⟨l, by simp, by simp, by simp⟩
    · simp only [IndexByte, hac, if_false, Option.map_eq_some'] at h
      obtain ⟨j, hj, rfl⟩ := h
      obtain ⟨r, h1, h2, h3⟩ := ih j hj
      refine ⟨r, ?_, ?_, ?_⟩
      · simp only [List.take_succ_cons, List.cons_append]
        rw [← h1]
      · simp only [List.take_succ_cons, List.mem_cons, not_or]
        exact ⟨Ne.symm hac, h2⟩
      · simp; omega

theorem dropCR_length_le (l : List Byte) : (dropCR l).length ≤ l.length := by
  unfold dropCR
  split <;> simp

theorem Scan_nil (o : offsetCounter) : Scan o [] = none := by
  rfl

theorem Scan_line (o : offsetCounter) (l r : List Byte) (hl : LF ∉ l)
    (hlen : l.length < MaxScanTokenSize) :
    Scan o (l ++ LF :: r) = some (⟨o.offset + (l.length + 1 : Nat)⟩, dropCR l, r) := by
  have htake : (l ++ LF :: r).take MaxScanTokenSize
      = l ++ LF :: r.take (MaxScanTokenSize - l.length - 1) := by
    rw [List.take_append_eq_append_take, List.take_of_length_le (le_of_lt hlen)]
    congr 1
    obtain ⟨k, hk⟩ : ∃ k, MaxScanTokenSize - l.length = k + 1 := ⟨MaxScanTokenSize - l.length - 1, by omega⟩
    rw [hk, List.take_succ_cons]
    simp
  simp only [Scan, offsetCounter.ScanLines, bufioScanLines, htake, IndexByte_append_cons _ _ _ hl]
  simp

theorem Scan_last (o : offsetCounter) (l : List Byte) (hl : LF ∉ l) (hne : l ≠ [])
    (hlen : l.length < MaxScanTokenSize) :
    Scan o l = some (⟨o.offset + (l.length : Nat)⟩, dropCR l, []) := by
  simp only [Scan, offsetCounter.ScanLines, bufioScanLines, List.take_of_length_le (le_of_lt hlen),
    IndexByte_of_not_mem _ _ hl, hlen]
  simp [hne]

theorem Scan_tooLong (o : offsetCounter) (b : List Byte)
    (hlen : MaxScanTokenSize ≤ b.length) (hl : LF ∉ b.take MaxScanTokenSize) :
    Scan o b = none := by
  have : ¬ b.length < MaxScanTokenSize := by omega
  simp only [Scan, offsetCounter.ScanLines, bufioScanLines, IndexByte_of_not_mem _ _ hl, this]
  simp


theorem IndexByte_none (l : List Byte) (c : Byte) (h : IndexByte l c = none) : c ∉ l := by
  induction l with
  | nil => simp
  | cons a l ih =>
    by_cases hac : a = c
    · simp [IndexByte, hac] at h
    · simp only [IndexByte, hac, if_false, Option.map_eq_none'] at h
      simp only [List.mem_cons, not_or]
      exact ⟨Ne.symm hac, ih h⟩

theorem bufioScanLines_of_index (data : List Byte) (atEOF : Bool) (i : Nat)
    (h : IndexByte data LF = some i) :
    bufioScanLines data atEOF = (i + 1, some (dropCR (data.take i))) := by
  have hne : data ≠ [] := by
    rintro rfl
    simp [IndexByte] at h
  simp [bufioScanLines, h, hne]

theorem bufioScanLines_atEOF (data : List Byte) (h : IndexByte data LF = none) (hne : data ≠ []) :
    bufioScanLines data true = (data.length, some (dropCR data)) := by
  simp [bufioScanLines, h, hne]

theorem bufioScanLines_more (data : List Byte) (h : IndexByte data LF = none) :
    bufioScanLines data false = (0, none) := by
  simp [bufioScanLines, h]

/-- What a successful `Scan` has done: it consumed either a line with its line
feed, or the unterminated rest of the input. -/
theorem Scan_some (o o' : offsetCounter) (rest line rest' : List Byte)
    (h : Scan o rest = some (o', line, rest')) :
    (∃ raw, rest = raw ++ LF :: rest' ∧ LF ∉ raw ∧ raw.length < MaxScanTokenSize ∧
        line = dropCR raw ∧ o' = ⟨o.offset + (raw.length + 1 : Nat)⟩) ∨
      (rest' = [] ∧ LF ∉ rest ∧ rest ≠ [] ∧ rest.length < MaxScanTokenSize ∧
        line = dropCR rest ∧ o' = ⟨o.offset + (rest.length : Nat)⟩) := by
  unfold Scan offsetCounter.ScanLines at h
  cases hidx : IndexByte (rest.take MaxScanTokenSize) LF with
  | some i =>
    left
    obtain ⟨r, h1, h2, h3⟩ := IndexByte_some _ _ _ hidx
    have hi : i < MaxScanTokenSize := by
      have := List.length_take_le MaxScanTokenSize rest
      omega
    have hdec : rest = (rest.take MaxScanTokenSize).take i ++ LF :: (r ++ rest.drop MaxScanTokenSize) := by
      conv_lhs => rw [← List.take_append_drop MaxScanTokenSize rest, h1]
      simp
    have hlenA : ((rest.take MaxScanTokenSize).take i).length = i := by
      rw [List.length_take]; omega
    have hdrop : rest.drop (i + 1) = r ++ rest.drop MaxScanTokenSize := by
      conv_lhs => rw [hdec]
      rw [List.drop_append_eq_append_drop]
      simp [hlenA]
    rw [bufioScanLines_of_index _ _ _ hidx] at h
    simp only [Option.some.injEq, Prod.mk.injEq] at h
    obtain ⟨ho, hline, hrest⟩ := h
    refine ⟨(rest.take MaxScanTokenSize).take i, ?_, h2, by omega, hline.symm, ?_⟩
    · rw [← hrest, hdrop]; exact hdec
    · rw [← ho, hlenA]
  | none =>
    right
    have hnot := IndexByte_none _ _ hidx
    by_cases hlt : rest.length < MaxScanTokenSize
    · have htake : rest.take MaxScanTokenSize = rest := List.take_of_length_le (le_of_lt hlt)
      rw [htake] at hnot hidx h
      by_cases hne : rest = []
      · subst hne
        have e : bufioScanLines [] (decide (([] : List Byte).length < MaxScanTokenSize)) = (0, none) := by
          decide
        rw [e] at h
        simp at h
      · rw [decide_eq_true hlt, bufioScanLines_atEOF _ hidx hne] at h
        simp only [Option.some.injEq, Prod.mk.injEq] at h
        obtain ⟨ho, hline, hrest⟩ := h
        refine ⟨?_, hnot, hne, hlt, hline.symm, ho.symm⟩
        rw [← hrest]; simp
    · rw [decide_eq_false hlt, bufioScanLines_more _ hidx] at h
      simp at h

theorem Scan_length_lt (o o' : offsetCounter) (rest line rest' : List Byte)
    (h : Scan o rest = some (o', line, rest')) : rest'.length < rest.length := by
  rcases Scan_some _ _ _ _ _ h with ⟨raw, h1, -⟩ | ⟨h1, -, h3, -⟩
  · rw [h1]; simp; omega
  · subst h1
    simpa using List.length_pos.mpr h3

/-- Fuel beyond the length of the input changes nothing. -/
theorem findConfigurationLoop_fuel (fuel₁ fuel₂ : Nat) (rest : List Byte) (o : offsetCounter)
    (inConfig : Bool) (lines : List (List Byte)) (start : Int)
    (h₁ : rest.length < fuel₁) (h₂ : rest.length < fuel₂) :
    findConfigurationLoop fuel₁ rest o inConfig lines start =
      findConfigurationLoop fuel₂ rest o inConfig lines start := by
  induction fuel₁ generalizing fuel₂ rest o inConfig lines start with
  | zero => omega
  | succ f₁ ih =>
    obtain ⟨f₂, rfl⟩ : ∃ f₂, fuel₂ = f₂ + 1 := ⟨fuel₂ - 1, by omega⟩
    simp only [findConfigurationLoop]
    cases hs : Scan o rest with
    | none => rfl
    | some r =>
      obtain ⟨o', line, rest'⟩ := r
      have hlt := Scan_length_lt _ _ _ _ _ hs
      have e : ∀ ic ls st, findConfigurationLoop f₁ rest' o' ic ls st =
          findConfigurationLoop f₂ rest' o' ic ls st :=
        fun ic ls st => ih f₂ rest' o' ic ls st (by omega) (by omega)
      simp only [e]


/-! ## Lemmas on the loop of `findConfiguration` -/

/-- One round of the loop, with the fuel kept: the unread input got shorter. -/
theorem findConfigurationLoop_step (fuel : Nat) (rest : List Byte) (o : offsetCounter)
    (inConfig : Bool) (lines : List (List Byte)) (start : Int) (h : rest.length < fuel) :
    findConfigurationLoop fuel rest o inConfig lines start =
      match Scan o rest with
      | none => (lines, o.offset, o.offset)
      | some (o', line, rest') =>
        if !inConfig && HasPrefix line SnippetHeader then
          findConfigurationLoop fuel rest' o' true lines
            (o'.offset - ((line.length + 1 : Nat) : Int))
        else if inConfig && HasPrefix line SnippetFooter then
          (lines, start, o'.offset)
        else if inConfig then
          findConfigurationLoop fuel rest' o' inConfig (lines ++ [line]) start
        else
          findConfigurationLoop fuel rest' o' inConfig lines start := by
  obtain ⟨f, rfl⟩ : ∃ f, fuel = f + 1 := ⟨fuel - 1, by omega⟩
  rw [findConfigurationLoop]
  cases hs : Scan o rest with
  | none => rfl
  | some r =>
    obtain ⟨o', line, rest'⟩ := r
    have hlt := Scan_length_lt _ _ _ _ _ hs
    have e : ∀ ic ls st, findConfigurationLoop f rest' o' ic ls st =
        findConfigurationLoop (f + 1) rest' o' ic ls st :=
      fun ic ls st => findConfigurationLoop_fuel _ _ _ _ _ _ _ (by omega) (by omega)
    simp only [e]

theorem HasPrefix_iff (s p : List Byte) : HasPrefix s p = true ↔ p <+: s := by
  simp [HasPrefix]

theorem dropCR_eq (l : List Byte) : dropCR l = l ∨ l = dropCR l ++ [CR] := by
  unfold dropCR
  split
  · right
    rename_i h
    rw [List.getLast?_eq_some_iff] at h
    obtain ⟨ys, rfl⟩ := h
    simp
  · left; rfl

theorem HasPrefix_dropCR (l p : List Byte) (hcr : p.getLast? ≠ some CR) :
    HasPrefix (dropCR l) p = HasPrefix l p := by
  rcases dropCR_eq l with h | h
  · rw [h]
  · rw [Bool.eq_iff_iff, HasPrefix_iff, HasPrefix_iff]
    constructor
    · intro hpre
      rw [h]
      exact hpre.trans (List.prefix_append _ _)
    · intro hpre
      rw [h, List.prefix_concat_iff] at hpre
      rcases hpre with hpre | hpre
      · exfalso; apply hcr; rw [hpre]; simp
      · exact hpre

theorem HasPrefix_dropCR_header (l : List Byte) :
    HasPrefix (dropCR l) SnippetHeader = HasPrefix l SnippetHeader :=
  HasPrefix_dropCR l _ (by decide)

theorem HasPrefix_dropCR_footer (l : List Byte) :
    HasPrefix (dropCR l) SnippetFooter = HasPrefix l SnippetFooter :=
  HasPrefix_dropCR l _ (by decide)


theorem joinLines_append (xs ys : List (List Byte)) :
    joinLines (xs ++ ys) = joinLines xs ++ joinLines ys := by
  induction xs with
  | nil => rfl
  | cons x xs ih => simp [joinLines, ih]

theorem loop_nil (fuel : Nat) (o : offsetCounter) (ic : Bool) (lines : List (List Byte))
    (start : Int) : findConfigurationLoop fuel [] o ic lines start = (lines, o.offset, o.offset) := by
  cases fuel with
  | zero => rfl
  | succ f => rw [findConfigurationLoop, Scan_nil]

/-- A line that is not a header, read outside a snippet, is passed over. -/
theorem loop_skip_line (fuel : Nat) (l rest : List Byte) (o : offsetCounter)
    (lines : List (List Byte)) (start : Int) (hl : scannable l)
    (hh : HasPrefix l SnippetHeader = false) (hf : (l ++ LF :: rest).length < fuel) :
    findConfigurationLoop fuel (l ++ LF :: rest) o false lines start =
      findConfigurationLoop fuel rest ⟨o.offset + (l.length + 1 : Nat)⟩ false lines start := by
  rw [findConfigurationLoop_step _ _ _ _ _ _ hf, Scan_line _ _ _ hl.1 hl.2]
  simp [HasPrefix_dropCR_header, hh]

/-- A header line read outside a snippet opens it and sets `start`. -/
theorem loop_header_line (fuel : Nat) (l rest : List Byte) (o : offsetCounter)
    (lines : List (List Byte)) (start : Int) (hl : scannable l)
    (hh : HasPrefix l SnippetHeader = true) (hf : (l ++ LF :: rest).length < fuel) :
    findConfigurationLoop fuel (l ++ LF :: rest) o false lines start =
      findConfigurationLoop fuel rest ⟨o.offset + (l.length + 1 : Nat)⟩ true lines
        (o.offset + (l.length + 1 : Nat) - (((dropCR l).length + 1 : Nat) : Int)) := by
  rw [findConfigurationLoop_step _ _ _ _ _ _ hf, Scan_line _ _ _ hl.1 hl.2]
  simp [HasPrefix_dropCR_header, hh]

/-- A line that is not a footer, read inside a snippet, is collected. -/
theorem loop_body_line (fuel : Nat) (l rest : List Byte) (o : offsetCounter)
    (lines : List (List Byte)) (start : Int) (hl : scannable l)
    (hh : HasPrefix l SnippetFooter = false) (hf : (l ++ LF :: rest).length < fuel) :
    findConfigurationLoop fuel (l ++ LF :: rest) o true lines start =
      findConfigurationLoop fuel rest ⟨o.offset + (l.length + 1 : Nat)⟩ true
        (lines ++ [dropCR l]) start := by
  rw [findConfigurationLoop_step _ _ _ _ _ _ hf, Scan_line _ _ _ hl.1 hl.2]
  simp [HasPrefix_dropCR_footer, hh]

/-- A footer line read inside a snippet ends the search. -/
theorem loop_footer_line (fuel : Nat) (l rest : List Byte) (o : offsetCounter)
    (lines : List (List Byte)) (start : Int) (hl : scannable l)
    (hh : HasPrefix l SnippetFooter = true) (hf : (l ++ LF :: rest).length < fuel) :
    findConfigurationLoop fuel (l ++ LF :: rest) o true lines start =
      (lines, start, o.offset + (l.length + 1 : Nat)) := by
  rw [findConfigurationLoop_step _ _ _ _ _ _ hf, Scan_line _ _ _ hl.1 hl.2]
  simp [HasPrefix_dropCR_footer, hh]

/-- A footer without a line feed at the end of the input ends the search too. -/
theorem loop_footer_last (fuel : Nat) (l : List Byte) (o : offsetCounter)
    (lines : List (List Byte)) (start : Int) (hl : scannable l)
    (hh : HasPrefix l SnippetFooter = true) (hf : l.length < fuel) :
    findConfigurationLoop fuel l o true lines start = (lines, start, o.offset + (l.length : Nat)) := by
  have hne : l ≠ [] := by
    rintro rfl
    revert hh
    decide
  rw [findConfigurationLoop_step _ _ _ _ _ _ hf, Scan_last _ _ hl.1 hne hl.2]
  simp [HasPrefix_dropCR_footer, hh]

/-- The last line, without a line feed, when it does not close a snippet: the
search ends at the end of the input with `start = end`. -/
theorem loop_last (fuel : Nat) (l : List Byte) (o : offsetCounter) (ic : Bool)
    (lines : List (List Byte)) (start : Int) (hl : scannable l)
    (hh : ic = false ∨ HasPrefix l SnippetFooter = false) (hf : l.length < fuel) :
    (findConfigurationLoop fuel l o ic lines start).2 =
      (o.offset + (l.length : Nat), o.offset + (l.length : Nat)) := by
  by_cases hne : l = []
  · subst hne
    simp [loop_nil]
  · rw [findConfigurationLoop_step _ _ _ _ _ _ hf, Scan_last _ _ hl.1 hne hl.2]
    simp only [HasPrefix_dropCR_footer, HasPrefix_dropCR_header]
    rcases hh with rfl | hh
    · by_cases h1 : HasPrefix l SnippetHeader = true <;> simp [h1, loop_nil]
    · cases ic <;> by_cases h1 : HasPrefix l SnippetHeader = true <;> simp [h1, hh, loop_nil]

/-- Lines without a header, read outside a snippet, are all passed over. -/
theorem loop_skip_lines (fuel : Nat) (ls : List (List Byte)) (rest : List Byte)
    (o : offsetCounter) (lines : List (List Byte)) (start : Int)
    (hl : ∀ l ∈ ls, scannable l ∧ HasPrefix l SnippetHeader = false)
    (hf : (joinLines ls ++ rest).length < fuel) :
    findConfigurationLoop fuel (joinLines ls ++ rest) o false lines start =
      findConfigurationLoop fuel rest ⟨o.offset + ((joinLines ls).length : Nat)⟩ false lines
        start := by
  induction ls generalizing o with
  | nil => simp [joinLines]
  | cons l ls ih =>
    have h1 := hl l (List.mem_cons_self _ _)
    have h2 : ∀ l ∈ ls, scannable l ∧ HasPrefix l SnippetHeader = false :=
      fun x hx => hl x (List.mem_cons_of_mem _ hx)
    simp only [joinLines, List.append_assoc, List.cons_append] at hf ⊢
    rw [loop_skip_line _ _ _ _ _ _ h1.1 h1.2 hf, ih _ h2 (by simp at hf ⊢; omega)]
    congr 2
    simp
    omega

/-- Lines without a footer, read inside a snippet, are all collected. -/
theorem loop_body_lines (fuel : Nat) (ls : List (List Byte)) (rest : List Byte)
    (o : offsetCounter) (lines : List (List Byte)) (start : Int)
    (hl : ∀ l ∈ ls, scannable l ∧ HasPrefix l SnippetFooter = false)
    (hf : (joinLines ls ++ rest).length < fuel) :
    findConfigurationLoop fuel (joinLines ls ++ rest) o true lines start =
      findConfigurationLoop fuel rest ⟨o.offset + ((joinLines ls).length : Nat)⟩ true
        (lines ++ ls.map dropCR) start := by
  induction ls generalizing o lines with
  | nil => simp [joinLines]
  | cons l ls ih =>
    have h1 := hl l (List.mem_cons_self _ _)
    have h2 : ∀ l ∈ ls, scannable l ∧ HasPrefix l SnippetFooter = false :=
      fun x hx => hl x (List.mem_cons_of_mem _ hx)
    simp only [joinLines, List.append_assoc, List.cons_append] at hf ⊢
    rw [loop_body_line _ _ _ _ _ _ h1.1 h1.2 hf, ih _ _ h2 (by simp at hf ⊢; omega)]
    simp only [List.map_cons, List.append_assoc, List.singleton_append]
    congr 2
    simp
    omega


/-! ## What `findConfiguration` returns -/

/-- Without a header line the search ends at the end of the content, whatever
the last line is when it has no line feed. -/
theorem findConfiguration_no_header (ls : List (List Byte)) (last : List Byte)
    (hl : ∀ l ∈ ls, scannable l ∧ HasPrefix l SnippetHeader = false) (hlast : scannable last) :
    (findConfiguration (joinLines ls ++ last)).2 =
      (((joinLines ls ++ last).length : Int), ((joinLines ls ++ last).length : Int)) := by
  unfold findConfiguration
  rw [loop_skip_lines _ _ _ _ _ _ hl (by omega),
    loop_last _ _ _ _ _ _ hlast (Or.inl rfl) (by simp; omega)]
  simp

/-- A header line that is never followed by a footer line: the search ends at
the end of the content and `start` is given up for it. -/
theorem findConfiguration_no_footer (pre body : List (List Byte)) (h last : List Byte)
    (hpre : ∀ l ∈ pre, scannable l ∧ HasPrefix l SnippetHeader = false)
    (hh : scannable h) (hhp : HasPrefix h SnippetHeader = true)
    (hbody : ∀ l ∈ body, scannable l ∧ HasPrefix l SnippetFooter = false)
    (hlast : scannable last) (hlastp : HasPrefix last SnippetFooter = false) :
    (findConfiguration (joinLines pre ++ (h ++ LF :: (joinLines body ++ last)))).2 =
      (((joinLines pre ++ (h ++ LF :: (joinLines body ++ last))).length : Int),
        ((joinLines pre ++ (h ++ LF :: (joinLines body ++ last))).length : Int)) := by
  unfold findConfiguration
  rw [loop_skip_lines _ _ _ _ _ _ hpre (by omega),
    loop_header_line _ _ _ _ _ _ hh hhp (by simp; omega),
    loop_body_lines _ _ _ _ _ _ hbody (by simp; omega),
    loop_last _ _ _ _ _ _ hlast (Or.inr hlastp) (by simp; omega)]
  simp
  omega

/-- The first header line and the first footer line after it: `start` is where
the header line begins, moved by one byte when that line ends in a carriage
return, and `end` is just after the line feed of the footer line. -/
theorem findConfiguration_block (pre body : List (List Byte)) (h f post : List Byte)
    (hpre : ∀ l ∈ pre, scannable l ∧ HasPrefix l SnippetHeader = false)
    (hh : scannable h) (hhp : HasPrefix h SnippetHeader = true)
    (hbody : ∀ l ∈ body, scannable l ∧ HasPrefix l SnippetFooter = false)
    (hf : scannable f) (hfp : HasPrefix f SnippetFooter = true) :
    findConfiguration (joinLines pre ++ (h ++ LF :: (joinLines body ++ (f ++ LF :: post)))) =
      (body.map dropCR,
        ((joinLines pre).length : Int) + (h.length - (dropCR h).length : Int),
        ((joinLines pre ++ (h ++ LF :: (joinLines body ++ (f ++ [LF])))).length : Int)) := by
  unfold findConfiguration
  rw [loop_skip_lines _ _ _ _ _ _ hpre (by omega),
    loop_header_line _ _ _ _ _ _ hh hhp (by simp; omega),
    loop_body_lines _ _ _ _ _ _ hbody (by simp; omega),
    loop_footer_line _ _ _ _ _ _ hf hfp (by simp; omega)]
  have := dropCR_length_le h
  simp
  constructor <;> omega

/-- The same when the footer is the last line and has no line feed. -/
theorem findConfiguration_block_last (pre body : List (List Byte)) (h f : List Byte)
    (hpre : ∀ l ∈ pre, scannable l ∧ HasPrefix l SnippetHeader = false)
    (hh : scannable h) (hhp : HasPrefix h SnippetHeader = true)
    (hbody : ∀ l ∈ body, scannable l ∧ HasPrefix l SnippetFooter = false)
    (hf : scannable f) (hfp : HasPrefix f SnippetFooter = true) :
    findConfiguration (joinLines pre ++ (h ++ LF :: (joinLines body ++ f))) =
      (body.map dropCR,
        ((joinLines pre).length : Int) + (h.length - (dropCR h).length : Int),
        ((joinLines pre ++ (h ++ LF :: (joinLines body ++ f))).length : Int)) := by
  unfold findConfiguration
  rw [loop_skip_lines _ _ _ _ _ _ hpre (by omega),
    loop_header_line _ _ _ _ _ _ hh hhp (by simp; omega),
    loop_body_lines _ _ _ _ _ _ hbody (by simp; omega),
    loop_footer_last _ _ _ _ _ hf hfp (by simp; omega)]
  have := dropCR_length_le h
  simp
  constructor <;> omega

theorem dropCR_of_not_mem (l : List Byte) (h : CR ∉ l) : dropCR l = l := by
  rcases dropCR_eq l with e | e
  · exact e
  · exfalso; apply h; rw [e]; simp

/-- On a regular file, when every call goes through, `WriteSnippet` reaches the
replacement with the content of the file and the mode of the file. -/
theorem WriteSnippetRun_quiet_file (umask : Nat) (b data : List Byte) (mode perm : FileMode)
    (now : Time) :
    WriteSnippetRun (OS.quiet umask) (some (Node.file b mode)) data perm now =
      WriteSnippet.replace (OS.quiet umask) (some (Node.file b mode)) data mode now b := rfl

/-- On a path that does not exist, when every call goes through, `WriteSnippet`
reaches the replacement with no content and the permission passed. -/
theorem WriteSnippetRun_quiet_none (umask : Nat) (data : List Byte) (perm : FileMode)
    (now : Time) :
    WriteSnippetRun (OS.quiet umask) none data perm now =
      WriteSnippet.replace (OS.quiet umask) none data perm now [] := rfl

/-- What `WriteSnippet` leaves in a non-empty regular file, from the offsets
`findConfiguration` returns when they are in range. -/
theorem WriteSnippet_of_find {umask : Nat} (b data : List Byte) (mode perm : FileMode) (now : Time)
    (s e : Nat) (hb : b ≠ []) (hfind : (findConfiguration b).2 = ((s : Int), (e : Int)))
    (hs : s ≤ b.length) (he : e ≤ b.length) :
    WriteSnippet (OS.quiet umask) (some (Node.file b mode)) data perm now =
      (Result.ok, some (Node.file
        (b.take s ++ (if s = e then [LF] else []) ++ snippetBlock data now ++ b.drop e) mode)) := by
  have hpos : b.length > 0 := List.length_pos.mpr hb
  have h1 : (findConfiguration b).2.1 = (s : Int) := by rw [hfind]
  have h2 : (findConfiguration b).2.2 = (e : Int) := by rw [hfind]
  rw [WriteSnippet, WriteSnippetRun_quiet_file]
  simp only [WriteSnippet.replace, osOpenFile, OS.quiet, h1, h2, hpos, sliceTo, sliceFrom, if_true]
  simp [hs, he]


/-- A line of `MaxScanTokenSize` bytes or more stops the scanner where that line
begins: `findConfiguration` returns that offset for `start` and for `end`. -/
theorem findConfiguration_tooLong (pre : List (List Byte)) (long : List Byte)
    (hpre : ∀ l ∈ pre, scannable l ∧ HasPrefix l SnippetHeader = false)
    (hlen : MaxScanTokenSize ≤ long.length) (hlf : LF ∉ long.take MaxScanTokenSize) :
    findConfiguration (joinLines pre ++ long) =
      ([], ((joinLines pre).length : Int), ((joinLines pre).length : Int)) := by
  unfold findConfiguration
  rw [loop_skip_lines _ _ _ _ _ _ hpre (by omega), findConfigurationLoop_step _ _ _ _ _ _ (by simp; omega),
    Scan_tooLong _ _ hlen hlf]
  simp

/-- The splice on a regular file that holds a snippet: the bytes before the
header line and after the footer line are kept, the lines between are replaced. -/
theorem WriteSnippet_block {umask : Nat} (pre body : List (List Byte)) (h f post data : List Byte)
    (mode perm : FileMode) (now : Time)
    (hpre : ∀ l ∈ pre, scannable l ∧ HasPrefix l SnippetHeader = false)
    (hh : scannable h) (hcr : CR ∉ h) (hhp : HasPrefix h SnippetHeader = true)
    (hbody : ∀ l ∈ body, scannable l ∧ HasPrefix l SnippetFooter = false)
    (hf : scannable f) (hfp : HasPrefix f SnippetFooter = true) :
    WriteSnippet (OS.quiet umask)
        (some (Node.file (joinLines pre ++ (h ++ LF :: (joinLines body ++ (f ++ LF :: post)))) mode))
        data perm now =
      (Result.ok, some (Node.file (joinLines pre ++ snippetBlock data now ++ post) mode)) := by
  have hfind := findConfiguration_block pre body h f post hpre hh hhp hbody hf hfp
  rw [dropCR_of_not_mem h hcr] at hfind
  have hb : joinLines pre ++ (h ++ LF :: (joinLines body ++ (f ++ LF :: post))) ≠ [] := by simp
  have e1 : joinLines pre ++ (h ++ LF :: (joinLines body ++ (f ++ LF :: post))) =
      (joinLines pre ++ (h ++ LF :: (joinLines body ++ (f ++ [LF])))) ++ post := by simp
  have t1 : List.take (joinLines pre).length
      (joinLines pre ++ (h ++ LF :: (joinLines body ++ (f ++ LF :: post)))) = joinLines pre :=
    List.take_left' rfl
  have t2 : List.drop (joinLines pre ++ (h ++ LF :: (joinLines body ++ (f ++ [LF])))).length
      (joinLines pre ++ (h ++ LF :: (joinLines body ++ (f ++ LF :: post)))) = post := by
    rw [e1]
    exact List.drop_left' rfl
  have e2 : ¬ (joinLines pre).length =
      (joinLines pre ++ (h ++ LF :: (joinLines body ++ (f ++ [LF])))).length := by
    simp
  rw [WriteSnippet_of_find _ data mode perm now (joinLines pre).length
    (joinLines pre ++ (h ++ LF :: (joinLines body ++ (f ++ [LF])))).length hb
    (by rw [hfind]; simp) (by simp) (by simp), if_neg e2, t1, t2]
  simp


/-! ## The bytes `WriteSnippet` writes -/

theorem HasSuffix_LF (data : List Byte) : HasSuffix data [LF] = true ↔ data.getLast? = some LF := by
  unfold HasSuffix
  rw [List.isSuffixOf_iff_suffix]
  constructor
  · rintro ⟨t, rfl⟩
    simp
  · intro h
    rw [List.getLast?_eq_some_iff] at h
    obtain ⟨ys, rfl⟩ := h
    exact List.suffix_append _ _

/-- The bytes `WriteSnippet` writes for the snippet are the wire format. -/
theorem snippetBlock_eq_wireFormat (data : List Byte) (t : Time) :
    snippetBlock data t = wireFormat data t := by
  have e1 : bytesOf "# autogenerated by step @ " = SnippetHeader ++ bytesOf " @ " := by decide
  have e2 : bytesOf "\n" = [LF] := by decide
  have e3 : bytesOf "# end\n" = SnippetFooter ++ [LF] := by decide
  unfold snippetBlock wireFormat headerLine
  rw [e1, e2, e3]
  by_cases h : data.getLast? = some LF
  · rw [if_pos h, if_pos ((HasSuffix_LF data).mpr h)]
  · have h' : ¬ HasSuffix data [LF] = true := fun hh => h ((HasSuffix_LF data).mp hh)
    rw [if_neg h, if_neg h']

theorem digit_mem (n : Nat) : digit n ∈ [48, 49, 50, 51, 52, 53, 54, 55, 56, 57] := by
  have h := Nat.mod_lt n (show 10 > 0 by norm_num)
  unfold digit
  interval_cases n % 10 <;> decide

theorem decimalAux_digits (fuel n : Nat) :
    ∀ c ∈ decimalAux fuel n, c ∈ [48, 49, 50, 51, 52, 53, 54, 55, 56, 57] := by
  induction fuel generalizing n with
  | zero => simp [decimalAux]
  | succ f ih =>
    intro c hc
    unfold decimalAux at hc
    split at hc
    · simp only [List.mem_singleton] at hc
      rw [hc]; exact digit_mem n
    · rw [List.mem_append, List.mem_singleton] at hc
      rcases hc with hc | hc
      · exact ih _ c hc
      · rw [hc]; exact digit_mem n

theorem decimalAux_length (fuel n : Nat) : (decimalAux fuel n).length ≤ fuel := by
  induction fuel generalizing n with
  | zero => simp [decimalAux]
  | succ f ih =>
    unfold decimalAux
    split
    · simp
    · have := ih (n / 10)
      simp
      omega

theorem appendInt_digits (n w : Nat) :
    ∀ c ∈ appendInt n w, c ∈ [48, 49, 50, 51, 52, 53, 54, 55, 56, 57] := by
  intro c hc
  unfold appendInt at hc
  simp only [List.mem_append, List.mem_replicate] at hc
  rcases hc with ⟨-, hc⟩ | hc
  · rw [hc]; exact digit_mem 0
  · exact decimalAux_digits _ _ c hc

theorem appendInt_length (n w : Nat) : (appendInt n w).length ≤ w + 20 := by
  unfold appendInt
  have := decimalAux_length 20 n
  simp
  omega

theorem RFC3339_bytes (t : Time) : ∀ c ∈ RFC3339 t, c ∈ stampBytes := by
  intro c hc
  have hd : ∀ n w, c ∈ appendInt n w → c ∈ stampBytes := fun n w h =>
    List.mem_append_left _ (appendInt_digits n w c h)
  have hs : ∀ s, s ∈ ["-", "T", ":", "Z"] → c ∈ bytesOf s → c ∈ stampBytes := by
    intro s hs hc
    apply List.mem_append_right
    simp only [List.mem_cons, List.mem_singleton, List.not_mem_nil, or_false] at hs
    rcases hs with rfl | rfl | rfl | rfl <;>
      · have : c ∈ ([_] : List Byte) := hc
        rw [List.mem_singleton] at this
        rw [this]; decide
  unfold RFC3339 at hc
  simp only [List.mem_append] at hc
  rcases hc with ((((((((((h | h) | h) | h) | h) | h) | h) | h) | h) | h) | h) | h
  all_goals first
    | exact hd _ _ h
    | exact hs _ (by simp) h

theorem RFC3339_length (t : Time) : (RFC3339 t).length ≤ 200 := by
  unfold RFC3339
  have h1 := appendInt_length t.year 4
  have h2 := appendInt_length t.month 2
  have h3 := appendInt_length t.day 2
  have h4 := appendInt_length t.hour 2
  have h5 := appendInt_length t.minute 2
  have h6 := appendInt_length t.second 2
  have e : ∀ s, s ∈ ["-", "T", ":", "Z"] → (bytesOf s).length = 1 := by decide
  simp only [List.length_append, e "-" (by simp), e "T" (by simp), e ":" (by simp), e "Z" (by simp)]
  omega

/-- The header line `WriteSnippet` writes is one line that the scanner takes for
a header, with no carriage return. -/
theorem headerLine_spec (now : Time) :
    ∃ h, headerLine now = h ++ [LF] ∧ scannable h ∧ CR ∉ h ∧ HasPrefix h SnippetHeader = true := by
  refine ⟨SnippetHeader ++ bytesOf " @ " ++ RFC3339 now, rfl, ⟨?_, ?_⟩, ?_, ?_⟩
  · intro hmem
    simp only [List.mem_append] at hmem
    rcases hmem with (h | h) | h
    · revert h; decide
    · revert h; decide
    · have := RFC3339_bytes now _ h
      revert this; decide
  · have := RFC3339_length now
    have e1 : SnippetHeader.length = 23 := by decide
    have e2 : (bytesOf " @ ").length = 3 := by decide
    simp only [List.length_append, e1, e2, MaxScanTokenSize]
    omega
  · intro hmem
    simp only [List.mem_append] at hmem
    rcases hmem with (h | h) | h
    · revert h; decide
    · revert h; decide
    · have := RFC3339_bytes now _ h
      revert this; decide
  · rw [HasPrefix_iff, List.append_assoc]
    exact List.prefix_append _ _


/-! ## Lines of a content -/

theorem splitLines_line (l rest : List Byte) (hl : LF ∉ l) :
    splitLines (l ++ LF :: rest) = l :: splitLines rest := by
  induction l with
  | nil => simp [splitLines]
  | cons c l ih =>
    simp only [List.mem_cons, not_or] at hl
    have hc : c ≠ LF := fun h => hl.1 h.symm
    simp [splitLines, hc, ih hl.2]

theorem splitLines_last (l : List Byte) (hl : LF ∉ l) (hne : l ≠ []) : splitLines l = [l] := by
  induction l with
  | nil => exact absurd rfl hne
  | cons c l ih =>
    simp only [List.mem_cons, not_or] at hl
    have hc : c ≠ LF := fun h => hl.1 h.symm
    by_cases hl0 : l = []
    · subst hl0; simp [splitLines, hc]
    · simp [splitLines, hc, ih hl.2 hl0]

theorem splitLines_joinLines (ls : List (List Byte)) (rest : List Byte)
    (hl : ∀ l ∈ ls, LF ∉ l) : splitLines (joinLines ls ++ rest) = ls ++ splitLines rest := by
  induction ls with
  | nil => rfl
  | cons l ls ih =>
    simp only [joinLines, List.append_assoc, List.cons_append]
    rw [splitLines_line _ _ (hl l (List.mem_cons_self _ _)),
      ih (fun x hx => hl x (List.mem_cons_of_mem _ hx))]

theorem joinLines_cons_concat (xs : List (List Byte)) (x : List Byte) :
    ∃ p, joinLines (x :: xs) = p ++ [LF] := by
  induction xs generalizing x with
  | nil => exact ⟨x, by simp [joinLines]⟩
  | cons y ys ih =>
    obtain ⟨p, hp⟩ := ih y
    refine ⟨x ++ LF :: p, ?_⟩
    rw [joinLines, hp]
    simp

/-- Every content is a sequence of lines with their line feeds, followed by what
comes after the last line feed. -/
theorem exists_joinLines (b : List Byte) :
    ∃ ls last, b = joinLines ls ++ last ∧ (∀ l ∈ ls, LF ∉ l) ∧ LF ∉ last ∧
      splitLines b = ls ++ (if last = [] then [] else [last]) := by
  induction b with
  | nil => exact ⟨[], [], rfl, by simp, by simp, rfl⟩
  | cons c cs ih =>
    obtain ⟨ls, last, h1, h2, h3, h4⟩ := ih
    by_cases hc : c = LF
    · refine ⟨[] :: ls, last, ?_, ?_, h3, ?_⟩
      · simp [joinLines, hc, h1]
      · intro l hl
        rcases List.mem_cons.mp hl with rfl | hl
        · simp
        · exact h2 l hl
      · simp [splitLines, hc, h4]
    · have hc' : LF ≠ c := fun h => hc h.symm
      cases ls with
      | nil =>
        refine ⟨[], c :: last, ?_, by simp, ?_, ?_⟩
        · simpa [joinLines] using h1
        · simp [hc', h3]
        · simp only [joinLines, List.nil_append] at h1
          subst h1
          rw [splitLines_last (c :: cs) (by simp [hc', h3]) (by simp)]
          simp
      | cons l ls =>
        refine ⟨(c :: l) :: ls, last, ?_, ?_, h3, ?_⟩
        · simp [joinLines, h1]
        · intro x hx
          rcases List.mem_cons.mp hx with rfl | hx
          · simp [hc', h2 l (List.mem_cons_self _ _)]
          · exact h2 x (List.mem_cons_of_mem _ hx)
        · simp [splitLines, hc, h4]

/-- The data with the line feed `WriteSnippet` adds to it is a sequence of
lines: those of the data, or one empty line when the data is empty. -/
theorem exists_joinLines_data (data : List Byte) :
    ∃ body, data ++ (if HasSuffix data [LF] then [] else [LF]) = joinLines body ∧
      ∀ l ∈ body, LF ∉ l ∧ (l ∈ splitLines data ∨ l = []) := by
  obtain ⟨ls, last, h1, h2, h3, h4⟩ := exists_joinLines data
  by_cases hlast : last = []
  · subst hlast
    rw [if_pos rfl, List.append_nil] at h4
    rw [List.append_nil] at h1
    cases hls : ls with
    | nil =>
      subst hls
      refine ⟨[[]], ?_, by simp⟩
      rw [h1]
      decide
    | cons l0 ls0 =>
      have hsuf : HasSuffix data [LF] = true := by
        obtain ⟨p, hp⟩ := joinLines_cons_concat ls0 l0
        rw [HasSuffix_LF, h1, hls, hp]
        exact List.getLast?_concat p
      refine ⟨ls, ?_, ?_⟩
      · rw [if_pos hsuf, List.append_nil, h1]
      · intro l hl
        exact ⟨h2 l hl, Or.inl (by rw [h4]; exact hl)⟩
  · rw [if_neg hlast] at h4
    have hsuf : ¬ HasSuffix data [LF] = true := by
      rw [HasSuffix_LF, h1, List.getLast?_append_of_ne_nil _ hlast]
      intro h
      exact h3 (List.mem_of_getLast?_eq_some h)
    refine ⟨ls ++ [last], ?_, ?_⟩
    · rw [if_neg hsuf, joinLines_append, h1]
      simp [joinLines]
    · intro l hl
      rcases List.mem_append.mp hl with hl | hl
      · exact ⟨h2 l hl, Or.inl (by rw [h4]; exact List.mem_append_left _ hl)⟩
      · rw [List.mem_singleton] at hl
        subst hl
        exact ⟨h3, Or.inl (by rw [h4]; simp)⟩


/-! ## Bounds, and the splice in general -/

/-- The bounds the loop keeps: the counter never passes the end of the content,
and inside a snippet `start` is an offset the counter has passed; it is below
zero only for a header line without a line feed at the end of the input, after
which nothing is read. -/
theorem findConfigurationLoop_bounds (fuel : Nat) (rest : List Byte) (o : offsetCounter)
    (ic : Bool) (lines : List (List Byte)) (start : Int) (total : Int)
    (ho : 0 ≤ o.offset) (htot : o.offset + (rest.length : Int) = total)
    (hstart : ic = true → start ≤ o.offset ∧ (0 ≤ start ∨ rest = [])) :
    0 ≤ (findConfigurationLoop fuel rest o ic lines start).2.1 ∧
      (findConfigurationLoop fuel rest o ic lines start).2.1 ≤
        (findConfigurationLoop fuel rest o ic lines start).2.2 ∧
      (findConfigurationLoop fuel rest o ic lines start).2.2 ≤ total := by
  induction fuel generalizing rest o ic lines start with
  | zero =>
    simp only [findConfigurationLoop]
    omega
  | succ f ih =>
    rw [findConfigurationLoop]
    cases hs : Scan o rest with
    | none =>
      simp only
      omega
    | some r =>
      obtain ⟨o', line, rest'⟩ := r
      have hline := dropCR_length_le
      have key : 0 ≤ o'.offset ∧ o.offset ≤ o'.offset ∧ o'.offset + (rest'.length : Int) = total ∧
          rest ≠ [] ∧ (o.offset ≤ o'.offset - ((line.length + 1 : Nat) : Int) ∨ rest' = []) := by
        rcases Scan_some _ _ _ _ _ hs with ⟨raw, h1, -, -, h4, h5⟩ | ⟨h1, -, h3, -, h5, h6⟩
        · have := hline raw
          subst h1 h4 h5
          simp at htot ⊢
          refine ⟨by omega, by omega, by omega, by omega⟩
        · subst h1 h5 h6
          simp at htot ⊢
          refine ⟨by omega, by omega, h3⟩
      obtain ⟨k1, k2, k3, k4, k5⟩ := key
      simp only
      split
      · apply ih _ _ _ _ _ k1 k3
        intro _
        refine ⟨by omega, ?_⟩
        rcases k5 with k5 | k5
        · left; omega
        · right; exact k5
      · split
        · rename_i hnot hft
          simp only [Bool.and_eq_true] at hft
          have := hstart hft.1
          simp only
          refine ⟨?_, by omega, by omega⟩
          rcases this.2 with h | h
          · exact h
          · exact absurd h k4
        · split
          · rename_i hic
            apply ih _ _ _ _ _ k1 k3
            intro _
            have := hstart hic
            refine ⟨by omega, ?_⟩
            rcases this.2 with h | h
            · left; exact h
            · exact absurd h k4
          · rename_i hic
            apply ih _ _ _ _ _ k1 k3
            intro h
            exact absurd h hic

/-- The offsets `findConfiguration` returns are in range, in order. -/
theorem findConfiguration_bounds (b : List Byte) :
    0 ≤ (findConfiguration b).2.1 ∧ (findConfiguration b).2.1 ≤ (findConfiguration b).2.2 ∧
      (findConfiguration b).2.2 ≤ (b.length : Int) := by
  unfold findConfiguration
  exact findConfigurationLoop_bounds _ _ _ _ _ _ _ (le_refl _) (by simp) (by simp)

theorem sliceTo_isSome (b : List Byte) (hi : Int) (h0 : 0 ≤ hi) (h1 : hi ≤ (b.length : Int)) :
    sliceTo b hi = some (b.take hi.toNat) := by
  simp [sliceTo, h0, h1]

theorem sliceFrom_isSome (b : List Byte) (lo : Int) (h0 : 0 ≤ lo) (h1 : lo ≤ (b.length : Int)) :
    sliceFrom b lo = some (b.drop lo.toNat) := by
  simp [sliceFrom, h0, h1]

/-- What `WriteSnippet` leaves in a regular file, empty or not, whatever the
offsets are. -/
theorem WriteSnippet_file {umask : Nat} (b data : List Byte) (mode perm : FileMode) (now : Time) :
    WriteSnippet (OS.quiet umask) (some (Node.file b mode)) data perm now =
      (Result.ok, some (Node.file
        (if b = [] then snippetBlock data now
          else b.take (findConfiguration b).2.1.toNat ++
            (if (findConfiguration b).2.1 = (findConfiguration b).2.2 then [LF] else []) ++
            snippetBlock data now ++ b.drop (findConfiguration b).2.2.toNat) mode)) := by
  obtain ⟨h0, h1, h2⟩ := findConfiguration_bounds b
  by_cases hb : b = []
  · subst hb
    rfl
  · have hpos : b.length > 0 := List.length_pos.mpr hb
    rw [WriteSnippet, WriteSnippetRun_quiet_file]
    simp only [WriteSnippet.replace, osOpenFile, OS.quiet, hpos, if_true, if_neg hb,
      sliceTo_isSome b _ h0 (by omega), sliceFrom_isSome b _ (by omega) h2]
    simp


/-- The splice when a line of `MaxScanTokenSize` bytes or more comes before any
header line: the snippet is written where that line begins, after a line feed,
and the whole content from that line on follows it. -/
theorem WriteSnippet_tooLong {umask : Nat} (pre : List (List Byte)) (long data : List Byte)
    (mode perm : FileMode) (now : Time)
    (hpre : ∀ l ∈ pre, scannable l ∧ HasPrefix l SnippetHeader = false)
    (hlen : MaxScanTokenSize ≤ long.length) (hlf : LF ∉ long.take MaxScanTokenSize) :
    WriteSnippet (OS.quiet umask) (some (Node.file (joinLines pre ++ long) mode)) data perm now =
      (Result.ok, some (Node.file
        (joinLines pre ++ LF :: (wireFormat data now ++ long)) mode)) := by
  have hne : joinLines pre ++ long ≠ [] := by
    intro h
    have h0 : long.length = 0 := by
      rw [(List.append_eq_nil.mp h).2]; rfl
    have : 0 < MaxScanTokenSize := by decide
    omega
  rw [WriteSnippet_file, if_neg hne, findConfiguration_tooLong pre long hpre hlen hlf,
    snippetBlock_eq_wireFormat]
  simp

theorem replicate_tooLong (n : Nat) (c : Byte) (tail : List Byte) (hn : MaxScanTokenSize ≤ n)
    (hc : c ≠ LF) :
    MaxScanTokenSize ≤ (List.replicate n c ++ tail).length ∧
      LF ∉ (List.replicate n c ++ tail).take MaxScanTokenSize := by
  constructor
  · rw [List.length_append, List.length_replicate]
    omega
  · rw [List.take_append_of_le_length (by rw [List.length_replicate]; exact hn)]
    intro h
    exact hc (List.eq_of_mem_replicate (List.mem_of_mem_take h)).symm


theorem longLine_tooLong (tail : List Byte) :
    MaxScanTokenSize ≤ (longLine ++ tail).length ∧
      LF ∉ (longLine ++ tail).take MaxScanTokenSize :=
  replicate_tooLong 70000 97 tail (by decide) (by decide)

theorem longLine_cons : longLine = 97 :: List.replicate 69999 97 := rfl


/-! ## The counter of the scanner -/

theorem lineEnds_line (pos : Nat) (raw rest : List Byte) (h : LF ∉ raw) :
    lineEnds pos (raw ++ LF :: rest) =
      (pos + raw.length + 1) :: lineEnds (pos + raw.length + 1) rest := by
  induction raw generalizing pos with
  | nil => simp [lineEnds]
  | cons c cs ih =>
    simp only [List.mem_cons, not_or] at h
    have hc : c ≠ LF := fun e => h.1 e.symm
    have hne : cs ++ LF :: rest ≠ [] := by simp
    rw [List.cons_append, lineEnds, if_neg hc, if_neg hne, ih _ h.2, List.length_cons]
    congr 2 <;> omega

theorem lineEnds_last (pos : Nat) (raw : List Byte) (h : LF ∉ raw) (hne : raw ≠ []) :
    lineEnds pos raw = [pos + raw.length] := by
  induction raw generalizing pos with
  | nil => exact absurd rfl hne
  | cons c cs ih =>
    simp only [List.mem_cons, not_or] at h
    have hc : c ≠ LF := fun e => h.1 e.symm
    by_cases hcs : cs = []
    · subst hcs
      simp [lineEnds, hc]
    · rw [lineEnds, if_neg hc, if_neg hcs, ih _ h.2 hcs, List.length_cons]
      congr 1; omega

theorem scanAll_nil (fuel : Nat) (o : offsetCounter) : scanAll fuel o [] = ([], o, []) := by
  cases fuel with
  | zero => rfl
  | succ f => rw [scanAll, Scan_nil]

/-- Fuel beyond the length of the input changes nothing for `scanAll` either. -/
theorem scanAll_fuel (fuel₁ fuel₂ : Nat) (rest : List Byte) (o : offsetCounter)
    (h₁ : rest.length < fuel₁) (h₂ : rest.length < fuel₂) :
    scanAll fuel₁ o rest = scanAll fuel₂ o rest := by
  induction fuel₁ generalizing fuel₂ rest o with
  | zero => omega
  | succ f₁ ih =>
    obtain ⟨f₂, rfl⟩ : ∃ f₂, fuel₂ = f₂ + 1 := ⟨fuel₂ - 1, by omega⟩
    rw [scanAll, scanAll]
    cases hs : Scan o rest with
    | none => rfl
    | some r =>
      obtain ⟨o', line, rest'⟩ := r
      have hlt := Scan_length_lt _ _ _ _ _ hs
      simp only [ih f₂ rest' o' (by omega) (by omega)]

/-- The counter after every line the scanner yields, against the offsets of the
line ends of the input. -/
theorem scanAll_spec (fuel : Nat) (rest : List Byte) (o : offsetCounter) (pos : Nat)
    (ho : o.offset = (pos : Int)) (hf : rest.length < fuel) :
    (scanAll fuel o rest).1.map Prod.snd =
        ((lineEnds pos rest).take (scanAll fuel o rest).1.length).map Int.ofNat ∧
      (scanAll fuel o rest).2.1.offset + ((scanAll fuel o rest).2.2.length : Int) =
        ((pos + rest.length : Nat) : Int) ∧
      ((scanAll fuel o rest).2.2 = [] →
        (scanAll fuel o rest).2.1.offset = ((pos + rest.length : Nat) : Int) ∧
        (scanAll fuel o rest).1.map Prod.snd = (lineEnds pos rest).map Int.ofNat) := by
  induction fuel generalizing rest o pos with
  | zero => omega
  | succ f ih =>
    rw [scanAll]
    cases hs : Scan o rest with
    | none =>
      refine ⟨by simp, by simp [ho], ?_⟩
      intro h
      simp only at h
      subst h
      simp [ho, lineEnds]
    | some r =>
      obtain ⟨o', line, rest'⟩ := r
      rcases Scan_some _ _ _ _ _ hs with ⟨raw, h1, h2, -, -, h5⟩ | ⟨h1, h2, h3, -, -, h6⟩
      · have ho' : o'.offset = ((pos + raw.length + 1 : Nat) : Int) := by
          rw [h5]; simp [ho]; omega
        have hlen : rest.length = raw.length + 1 + rest'.length := by
          rw [h1]; simp; omega
        obtain ⟨i1, i2, i3⟩ := ih rest' o' _ ho' (by omega)
        simp only [List.map_cons, List.length_cons]
        rw [h1, lineEnds_line _ _ _ h2, ← h1]
        refine ⟨?_, ?_, ?_⟩
        · rw [List.take_succ_cons, List.map_cons, ← i1, ho']
          rfl
        · rw [i2, hlen]; push_cast; omega
        · intro he
          obtain ⟨j1, j2⟩ := i3 he
          refine ⟨?_, ?_⟩
          · rw [j1, hlen]; push_cast; omega
          · rw [List.map_cons, ← j2, ho']
            rfl
      · subst h1
        have ho' : o'.offset = ((pos + rest.length : Nat) : Int) := by
          rw [h6]; simp [ho]
        simp only [scanAll_nil, List.map_cons, List.map_nil, List.length_cons, List.length_nil]
        rw [lineEnds_last _ _ h2 h3]
        refine ⟨?_, ?_, ?_⟩
        · simp [ho']
        · simp [ho']
        · intro _
          simp [ho']

/-- The scanner reads an input to its end when no line has `MaxScanTokenSize`
bytes or more. -/
theorem scanAll_exhausts (fuel : Nat) (ls : List (List Byte)) (last : List Byte)
    (o : offsetCounter) (hls : ∀ l ∈ ls, scannable l) (hlast : scannable last)
    (hf : (joinLines ls ++ last).length < fuel) :
    (scanAll fuel o (joinLines ls ++ last)).2.2 = [] := by
  induction ls generalizing fuel o with
  | nil =>
    obtain ⟨f, rfl⟩ : ∃ f, fuel = f + 1 := ⟨fuel - 1, by omega⟩
    simp only [joinLines, List.nil_append]
    by_cases hne : last = []
    · subst hne; rw [scanAll_nil]
    · rw [scanAll, Scan_last _ _ hlast.1 hne hlast.2]
      simp [scanAll_nil]
  | cons l ls ih =>
    obtain ⟨f, rfl⟩ : ∃ f, fuel = f + 1 := ⟨fuel - 1, by omega⟩
    have h1 := hls l (List.mem_cons_self _ _)
    simp only [joinLines, List.append_assoc, List.cons_append] at hf ⊢
    rw [scanAll, Scan_line _ _ _ h1.1 h1.2]
    simp only
    exact ih f _ (fun x hx => hls x (List.mem_cons_of_mem _ hx)) (by simp at hf ⊢; omega)


/-! ## One call after another -/

/-- A content whose lines are shorter than `MaxScanTokenSize` and have a property
`P`, cut into its lines with their line feeds and the rest after the last one. -/
theorem exists_scannable_lines (b : List Byte) (P : List Byte → Prop)
    (h : ∀ l ∈ splitLines b, l.length < MaxScanTokenSize ∧ P l) :
    ∃ ls last, b = joinLines ls ++ last ∧ (∀ l ∈ ls, scannable l ∧ P l) ∧ scannable last ∧
      (last ≠ [] → P last) ∧ splitLines b = ls ++ (if last = [] then [] else [last]) := by
  obtain ⟨ls, last, h1, h2, h3, h4⟩ := exists_joinLines b
  refine ⟨ls, last, h1, ?_, ?_, ?_, h4⟩
  · intro l hl
    have := h l (by rw [h4]; exact List.mem_append_left _ hl)
    exact ⟨⟨h2 l hl, this.1⟩, this.2⟩
  · refine ⟨h3, ?_⟩
    by_cases hne : last = []
    · subst hne; decide
    · exact (h last (by rw [h4, if_neg hne]; simp)).1
  · intro hne
    exact (h last (by rw [h4, if_neg hne]; simp)).2

/-- The splice on a regular file with no header line: the snippet is appended,
after a line feed when the file is not empty. -/
theorem WriteSnippet_no_header {umask : Nat} (prior data : List Byte) (mode perm : FileMode)
    (now : Time)
    (h : ∀ l ∈ splitLines prior, l.length < MaxScanTokenSize ∧ HasPrefix l SnippetHeader = false) :
    WriteSnippet (OS.quiet umask) (some (Node.file prior mode)) data perm now =
      (Result.ok, some (Node.file
        (prior ++ (if prior = [] then [] else [LF]) ++ wireFormat data now) mode)) := by
  by_cases hne : prior = []
  · subst hne
    rw [WriteSnippet_file, snippetBlock_eq_wireFormat]
    simp
  · obtain ⟨ls, last, h1, h2, h3, -, -⟩ := exists_scannable_lines prior _ h
    have hfind := findConfiguration_no_header ls last h2 h3
    rw [← h1] at hfind
    rw [WriteSnippet_of_find _ data mode perm now _ _ hne hfind (le_refl _) (le_refl _),
      snippetBlock_eq_wireFormat, List.take_length, List.drop_length, if_pos rfl, if_neg hne,
      List.append_nil]

/-- A second call replaces the snippet a first call wrote, and nothing else:
the lines before the snippet have no header, and the lines of the first data
have no footer. -/
theorem WriteSnippet_absorb {umask : Nat} (ps : List (List Byte)) (d1 d2 q : List Byte)
    (mode perm : FileMode) (t1 t2 : Time)
    (hps : ∀ l ∈ ps, scannable l ∧ HasPrefix l SnippetHeader = false)
    (hd1 : ∀ l ∈ splitLines d1, l.length < MaxScanTokenSize ∧ HasPrefix l SnippetFooter = false) :
    WriteSnippet (OS.quiet umask)
        (some (Node.file (joinLines ps ++ wireFormat d1 t1 ++ q) mode)) d2 perm t2 =
      (Result.ok, some (Node.file (joinLines ps ++ wireFormat d2 t2 ++ q) mode)) := by
  obtain ⟨h, e1, hh, hcr, hhp⟩ := headerLine_spec t1
  obtain ⟨body, e2, hbody⟩ := exists_joinLines_data d1
  have hbody' : ∀ l ∈ body, scannable l ∧ HasPrefix l SnippetFooter = false := by
    intro l hl
    rcases (hbody l hl).2 with hm | rfl
    · exact ⟨⟨(hbody l hl).1, (hd1 l hm).1⟩, (hd1 l hm).2⟩
    · decide
  have e : joinLines ps ++ wireFormat d1 t1 ++ q =
      joinLines ps ++ (h ++ LF :: (joinLines body ++ (SnippetFooter ++ LF :: q))) := by
    rw [← snippetBlock_eq_wireFormat, snippetBlock, e1, List.append_assoc (h ++ [LF]), e2]
    simp
  rw [e, WriteSnippet_block ps body h SnippetFooter q d2 mode perm t2 hps hh hcr hhp hbody'
    (by decide) (by decide), snippetBlock_eq_wireFormat]


theorem header_not_footer (l : List Byte) (h : HasPrefix l SnippetHeader = true) :
    HasPrefix l SnippetFooter = false := by
  cases hf : HasPrefix l SnippetFooter with
  | false => rfl
  | true =>
    rw [HasPrefix_iff] at h hf
    have := List.prefix_of_prefix_length_le hf h (by decide)
    revert this
    decide

theorem countLines_joinLines (p : List Byte) (ps : List (List Byte)) (rest : List Byte)
    (hps : ∀ l ∈ ps, LF ∉ l) :
    countLines p (joinLines ps ++ rest) =
      ps.countP (fun l => HasPrefix l p) + countLines p rest := by
  unfold countLines
  rw [splitLines_joinLines ps rest hps, List.countP_append]

theorem countP_eq_zero_of (p : List Byte) (ls : List (List Byte))
    (h : ∀ l ∈ ls, HasPrefix l p = false) : ls.countP (fun l => HasPrefix l p) = 0 := by
  rw [List.countP_eq_zero]
  intro l hl
  simp [h l hl]

/-- The header and footer lines of a content made of lines, a snippet and a rest,
when only the snippet brings a header and a footer. -/
theorem countLines_snippet (ps : List (List Byte)) (d q : List Byte) (t : Time)
    (hps : ∀ l ∈ ps, LF ∉ l ∧ HasPrefix l SnippetHeader = false ∧
      HasPrefix l SnippetFooter = false)
    (hd : ∀ l ∈ splitLines d, HasPrefix l SnippetHeader = false ∧
      HasPrefix l SnippetFooter = false)
    (hq : ∀ l ∈ splitLines q, HasPrefix l SnippetHeader = false ∧
      HasPrefix l SnippetFooter = false) :
    countLines SnippetHeader (joinLines ps ++ wireFormat d t ++ q) = 1 ∧
      countLines SnippetFooter (joinLines ps ++ wireFormat d t ++ q) = 1 := by
  obtain ⟨h, e1, hh, -, hhp⟩ := headerLine_spec t
  obtain ⟨body, e2, hbody⟩ := exists_joinLines_data d
  have hb : ∀ l ∈ body, HasPrefix l SnippetHeader = false ∧ HasPrefix l SnippetFooter = false := by
    intro l hl
    rcases (hbody l hl).2 with hm | rfl
    · exact hd l hm
    · decide
  have e : joinLines ps ++ wireFormat d t ++ q =
      joinLines ps ++ (joinLines [h] ++ (joinLines body ++ (joinLines [SnippetFooter] ++ q))) := by
    rw [← snippetBlock_eq_wireFormat, snippetBlock, e1, List.append_assoc (h ++ [LF]), e2]
    simp [joinLines]
  have hq0 : ∀ p, (∀ l ∈ splitLines q, HasPrefix l p = false) → countLines p q = 0 :=
    fun p hp => countP_eq_zero_of p _ hp
  rw [e]
  constructor
  · rw [countLines_joinLines _ _ _ (fun l hl => (hps l hl).1),
      countLines_joinLines _ _ _ (by simpa using hh.1),
      countLines_joinLines _ _ _ (fun l hl => (hbody l hl).1),
      countLines_joinLines _ _ _ (by decide),
      countP_eq_zero_of _ ps (fun l hl => (hps l hl).2.1),
      countP_eq_zero_of _ body (fun l hl => (hb l hl).1),
      hq0 _ (fun l hl => (hq l hl).1)]
    simp [List.countP_cons, hhp]
    decide
  · rw [countLines_joinLines _ _ _ (fun l hl => (hps l hl).1),
      countLines_joinLines _ _ _ (by simpa using hh.1),
      countLines_joinLines _ _ _ (fun l hl => (hbody l hl).1),
      countLines_joinLines _ _ _ (by decide),
      countP_eq_zero_of _ ps (fun l hl => (hps l hl).2.2),
      countP_eq_zero_of _ body (fun l hl => (hb l hl).2),
      hq0 _ (fun l hl => (hq l hl).2)]
    simp [List.countP_cons, header_not_footer h hhp]
    decide


/-- What `WriteSnippet` puts in front of the snippet, for a content without a
header line or with one well-formed snippet: whole lines without a header. -/
theorem insertion_lines (prior : List Byte) (pre body : List (List Byte)) (h f post : List Byte)
    (hprior : noHeader prior ∨ hasBlock prior pre body h f post) :
    ∃ ps, (∀ l ∈ ps, scannable l ∧ HasPrefix l SnippetHeader = false) ∧
      (∀ l ∈ ps, l ∈ splitLines (prior.take (findConfiguration prior).2.1.toNat) ∨ l = []) ∧
      prior.take (findConfiguration prior).2.1.toNat ++
        (if prior ≠ [] ∧ (findConfiguration prior).2.1 = (findConfiguration prior).2.2
          then [LF] else []) = joinLines ps := by
  rcases hprior with hA | ⟨e, hpre, ⟨hh, hcr, hhp⟩, hbody, hf, hfp⟩
  · obtain ⟨ls, last, h1, h2, h3, h4, h5⟩ := exists_scannable_lines prior _ hA
    have hfind := findConfiguration_no_header ls last h2 h3
    rw [← h1] at hfind
    have hs : (findConfiguration prior).2.1 = (prior.length : Int) := by rw [hfind]
    have he : (findConfiguration prior).2.2 = (prior.length : Int) := by rw [hfind]
    rw [hs, he, Int.toNat_ofNat, List.take_length]
    by_cases hne : prior = []
    · exact ⟨[], by simp, by simp, by simp [hne, joinLines]⟩
    · refine ⟨ls ++ [last], ?_, ?_, ?_⟩
      · intro l hl
        rcases List.mem_append.mp hl with hl | hl
        · exact h2 l hl
        · rw [List.mem_singleton] at hl
          subst hl
          refine ⟨h3, ?_⟩
          by_cases hl0 : l = []
          · subst hl0; decide
          · exact h4 hl0
      · intro l hl
        rw [h5]
        rcases List.mem_append.mp hl with hl | hl
        · exact Or.inl (List.mem_append_left _ hl)
        · rw [List.mem_singleton] at hl
          subst hl
          by_cases hl0 : l = []
          · exact Or.inr hl0
          · left; rw [if_neg hl0]; simp
      · rw [if_pos ⟨hne, rfl⟩, joinLines_append, h1]
        simp [joinLines]
  · have hfind := findConfiguration_block pre body h f post hpre hh hhp hbody hf hfp
    rw [dropCR_of_not_mem h hcr, ← e] at hfind
    have hs : (findConfiguration prior).2.1 = ((joinLines pre).length : Int) := by
      rw [hfind]; simp
    have he : (findConfiguration prior).2.1 ≠ (findConfiguration prior).2.2 := by
      rw [hfind]; simp; omega
    have htake : prior.take (joinLines pre).length = joinLines pre := by
      rw [e]; exact List.take_left' rfl
    rw [hs, Int.toNat_ofNat, htake, if_neg (fun hc => he (hs ▸ hc.2))]
    refine ⟨pre, hpre, ?_, by simp⟩
    intro l hl
    left
    have := splitLines_joinLines pre [] (fun x hx => (hpre x hx).1.1)
    rw [List.append_nil] at this
    rw [this]
    simpa [splitLines] using hl

/-- Two calls of `WriteSnippet` on a regular file without a header line or with
one well-formed snippet: the second replaces the snippet of the first. -/
theorem WriteSnippet_WriteSnippet {umask : Nat} (prior d1 d2 : List Byte) (pre body : List
    (List Byte))
    (h f post : List Byte) (mode perm₁ perm₂ : FileMode) (t₁ t₂ : Time)
    (hprior : noHeader prior ∨ hasBlock prior pre body h f post)
    (hd1 : ∀ l ∈ splitLines d1, l.length < MaxScanTokenSize ∧ HasPrefix l SnippetFooter = false) :
    ∃ ps, (∀ l ∈ ps, scannable l ∧ HasPrefix l SnippetHeader = false) ∧
      (∀ l ∈ ps, l ∈ splitLines (prior.take (findConfiguration prior).2.1.toNat) ∨ l = []) ∧
      prior.take (findConfiguration prior).2.1.toNat ++
        (if prior ≠ [] ∧ (findConfiguration prior).2.1 = (findConfiguration prior).2.2
          then [LF] else []) = joinLines ps ∧
      WriteSnippet (OS.quiet umask) (some (Node.file prior mode)) d1 perm₁ t₁ =
        (Result.ok, some (Node.file
          (joinLines ps ++ wireFormat d1 t₁ ++ prior.drop (findConfiguration prior).2.2.toNat)
          mode)) ∧
      WriteSnippet (OS.quiet umask)
          (WriteSnippet (OS.quiet umask) (some (Node.file prior mode)) d1 perm₁ t₁).2 d2 perm₂ t₂ =
        (Result.ok, some (Node.file
          (joinLines ps ++ wireFormat d2 t₂ ++ prior.drop (findConfiguration prior).2.2.toNat)
          mode)) := by
  obtain ⟨ps, h1, h2, h3⟩ := insertion_lines prior pre body h f post hprior
  have hfirst : WriteSnippet (OS.quiet umask) (some (Node.file prior mode)) d1 perm₁ t₁ =
      (Result.ok, some (Node.file
        (joinLines ps ++ wireFormat d1 t₁ ++ prior.drop (findConfiguration prior).2.2.toNat)
        mode)) := by
    rw [WriteSnippet_file, snippetBlock_eq_wireFormat, ← h3]
    by_cases hne : prior = []
    · subst hne; simp
    · simp [hne]
  refine ⟨ps, h1, h2, h3, hfirst, ?_⟩
  rw [hfirst]
  exact WriteSnippet_absorb ps d1 d2 _ mode perm₂ t₁ t₂ h1 hd1


/-! ## `AppendNewLine` and `WriteFile` -/

theorem get?_last (l : List Byte) (hne : l ≠ []) :
    l.get? (((l.length : Int) + -1).toNat) = l.getLast? := by
  have hpos : 0 < l.length := List.length_pos.mpr hne
  have e : ((l.length : Int) + -1).toNat = l.length - 1 := by omega
  rw [e, List.getLast?_eq_getElem?, List.get?_eq_getElem?]

/-- What `AppendNewLine` does to a regular file when no operation fails. -/
theorem AppendNewLine_file (prior data : List Byte) (mode perm : FileMode) :
    AppendNewLine noFaults (some (Node.file prior mode)) data perm =
      (none, some (Node.file
        (prior ++ (if prior ≠ [] ∧ prior.getLast? ≠ some LF then [LF] else []) ++ data)
        mode)) := by
  by_cases hne : prior = []
  · subst hne
    rfl
  · have hlen : prior.length ≠ 0 := fun h => hne (List.length_eq_zero.mp h)
    obtain ⟨c, hc⟩ : ∃ c, prior.getLast? = some c := by
      cases h : prior.getLast? with
      | none => exact absurd (List.getLast?_eq_none_iff.mp h) hne
      | some c => exact ⟨c, rfl⟩
    have hget := get?_last prior hne
    rw [hc] at hget
    have hnn : ¬ ((prior.length : Int) + -1 < 0) := by
      have : 0 < prior.length := List.length_pos.mpr hne
      omega
    simp only [AppendNewLine, OpenFile, noFaults, File.Seek, File.Read, File.Write, File.Close,
      hlen, hne, hc, hget, hnn, if_false, if_true, ne_eq, not_false_eq_true, true_and,
      Bool.false_eq_true, OfNat.ofNat_ne_zero, OfNat.ofNat_ne_one]
    by_cases hlf : c = LF
    · simp [hlf]
    · simp [hlf]

/-- What `ioutil.WriteFile` does on a regular file that can be opened. -/
theorem ioutilWriteFile_file (os : OS) (content data : List Byte) (mode perm : FileMode)
    (hopen : os.openErr = none) :
    ioutilWriteFile os (some (Node.file content mode)) data perm =
      (none, some (Node.file data mode)) := by
  simp [ioutilWriteFile, osOpenFile, hopen]

/-- What `ioutil.WriteFile` does on a path that does not exist and can be
created. -/
theorem ioutilWriteFile_none (os : OS) (data : List Byte) (perm : FileMode)
    (hopen : os.openErr = none) :
    ioutilWriteFile os none data perm =
      (none, some (Node.file data (applyUmask perm os.umask))) := by
  simp [ioutilWriteFile, osOpenFile, hopen]

/-- What `ioutil.WriteFile` does when the path cannot be opened. -/
theorem ioutilWriteFile_openErr (os : OS) (fs : FS) (data : List Byte) (perm : FileMode)
    (cause : OSError) (hopen : os.openErr = some cause) :
    ioutilWriteFile os fs data perm = (some (Error.pathError cause), fs) := by
  simp [ioutilWriteFile, osOpenFile, hopen]

/-- A directory is not written by `ioutil.WriteFile`. -/
theorem ioutilWriteFile_dir (os : OS) (data : List Byte) (mode perm : FileMode) :
    ∃ cause, ioutilWriteFile os (some (Node.dir mode)) data perm =
      (some (Error.pathError cause), some (Node.dir mode)) := by
  cases h : os.openErr with
  | none => exact ⟨OSError.EISDIR, by simp [ioutilWriteFile, osOpenFile, h]⟩
  | some cause => exact ⟨cause, by simp [ioutilWriteFile, osOpenFile, h]⟩

/-- Whatever `ioutil.WriteFile` does, it returns nil and leaves a regular file
that holds the data, or it returns an error and leaves the path as it was. -/
theorem ioutilWriteFile_cases (os : OS) (fs : FS) (data : List Byte) (perm : FileMode) :
    (∃ mode, ioutilWriteFile os fs data perm = (none, some (Node.file data mode))) ∨
      (∃ cause, ioutilWriteFile os fs data perm = (some (Error.pathError cause), fs)) := by
  cases h : os.openErr with
  | some cause => exact Or.inr ⟨cause, ioutilWriteFile_openErr os fs data perm cause h⟩
  | none =>
    match fs with
    | none => exact Or.inl ⟨_, ioutilWriteFile_none os data perm h⟩
    | some (Node.file content mode) => exact Or.inl ⟨_, ioutilWriteFile_file os content data mode perm h⟩
    | some (Node.dir mode) => exact Or.inr ⟨OSError.EISDIR, by simp [ioutilWriteFile, osOpenFile, h]⟩

/-- The refusal: force mode off, a regular file that `os.Stat` finds, an answer
that is `n` or `no` once trimmed and lower-cased. -/
theorem WriteFile_of_no (env : Env) (os : OS) (content data : List Byte) (mode perm : FileMode)
    (filename str : String) (hforce : env.IsForce = false) (hstat : os.statErr = none)
    (hprompt : env.Prompt ("Would you like to overwrite " ++ filename ++ " [y/n]") =
      Except.ok str)
    (hno : env.ToLower (env.TrimSpace str) = "n" ∨ env.ToLower (env.TrimSpace str) = "no") :
    WriteFile env os (some (Node.file content mode)) filename data perm =
      (some ErrFileExists, some (Node.file content mode),
        [Event.prompt ("Would you like to overwrite " ++ filename ++ " [y/n]")]) := by
  have hy : ¬ (env.ToLower (env.TrimSpace str) = "y" ∨ env.ToLower (env.TrimSpace str) = "yes") := by
    rcases hno with h | h <;> rw [h] <;> decide
  simp only [WriteFile, osStat, hstat, hforce, hprompt, if_neg hy, if_pos hno, Bool.false_eq_true,
    if_false]

/-- Any other answer: force mode off, a regular file that `os.Stat` finds, an
answer that is neither `n` nor `no` once trimmed and lower-cased. The call
ends as its call of `ioutil.WriteFile` ends. -/
theorem WriteFile_of_not_no (env : Env) (os : OS) (content data : List Byte)
    (mode perm : FileMode)
    (filename str : String) (hforce : env.IsForce = false) (hstat : os.statErr = none)
    (hprompt : env.Prompt ("Would you like to overwrite " ++ filename ++ " [y/n]") =
      Except.ok str)
    (hno : ¬ (env.ToLower (env.TrimSpace str) = "n" ∨ env.ToLower (env.TrimSpace str) = "no")) :
    WriteFile env os (some (Node.file content mode)) filename data perm =
      ((ioutilWriteFile os (some (Node.file content mode)) data perm).1,
        (ioutilWriteFile os (some (Node.file content mode)) data perm).2,
        [Event.prompt ("Would you like to overwrite " ++ filename ++ " [y/n]"),
          Event.writeFile data perm]) := by
  by_cases hy : env.ToLower (env.TrimSpace str) = "y" ∨ env.ToLower (env.TrimSpace str) = "yes"
  · simp only [WriteFile, osStat, hstat, hforce, hprompt, if_pos hy, Bool.false_eq_true, if_false]
  · simp only [WriteFile, osStat, hstat, hforce, hprompt, if_neg hy, if_neg hno,
      Bool.false_eq_true, if_false]

/-- A line of `MaxScanTokenSize` bytes or more inside a snippet stops the
scanner where that line begins, and the header found before it is given up. -/
theorem findConfiguration_tooLong_inside (pre body : List (List Byte)) (h long : List Byte)
    (hpre : ∀ l ∈ pre, scannable l ∧ HasPrefix l SnippetHeader = false)
    (hh : scannable h) (hhp : HasPrefix h SnippetHeader = true)
    (hbody : ∀ l ∈ body, scannable l ∧ HasPrefix l SnippetFooter = false)
    (hlen : MaxScanTokenSize ≤ long.length) (hlf : LF ∉ long.take MaxScanTokenSize) :
    (findConfiguration (joinLines pre ++ (h ++ LF :: (joinLines body ++ long)))).2 =
      (((joinLines pre ++ (h ++ LF :: joinLines body)).length : Int),
        ((joinLines pre ++ (h ++ LF :: joinLines body)).length : Int)) := by
  unfold findConfiguration
  rw [loop_skip_lines _ _ _ _ _ _ hpre (by omega),
    loop_header_line _ _ _ _ _ _ hh hhp (by simp; omega),
    loop_body_lines _ _ _ _ _ _ hbody (by simp; omega),
    findConfigurationLoop_step _ _ _ _ _ _ (by simp; omega), Scan_tooLong _ _ hlen hlf]
  simp
  omega

/-- Two calls of `WriteSnippet` leave what the second call alone leaves, on a
regular file without a header line or with one well-formed snippet, when the
scanner can buffer every line of the first data and none starts with the
footer. -/
theorem WriteSnippet_second_alone {umask : Nat} (prior d1 d2 : List Byte) (pre body : List
    (List Byte))
    (h f post : List Byte) (mode perm₁ perm₂ : FileMode) (t₁ t₂ : Time)
    (hprior : noHeader prior ∨ hasBlock prior pre body h f post)
    (hd1 : ∀ l ∈ splitLines d1, l.length < MaxScanTokenSize ∧ HasPrefix l SnippetFooter = false) :
    WriteSnippet (OS.quiet umask)
        (WriteSnippet (OS.quiet umask) (some (Node.file prior mode)) d1 perm₁ t₁).2 d2 perm₂ t₂ =
      WriteSnippet (OS.quiet umask) (some (Node.file prior mode)) d2 perm₂ t₂ := by
  obtain ⟨ps, -, -, h3, -, h5⟩ :=
    WriteSnippet_WriteSnippet prior d1 d2 pre body h f post mode perm₁ perm₂ t₁ t₂ hprior hd1
  rw [h5, WriteSnippet_file, snippetBlock_eq_wireFormat, ← h3]
  by_cases hne : prior = []
  · subst hne; simp
  · simp [hne]

/-- The second call when the first data, written to an empty file, is one line
of `MaxScanTokenSize` bytes or more: the scanner stops after the header line
of the first snippet, and the new snippet is put there. -/
theorem WriteSnippet_second_tooLong {umask : Nat} (long d2 : List Byte)
    (mode perm₁ perm₂ : FileMode)
    (t₁ t₂ : Time) (hlen : MaxScanTokenSize ≤ long.length) (hlf : LF ∉ long) :
    WriteSnippet (OS.quiet umask)
        (WriteSnippet (OS.quiet umask) (some (Node.file [] mode)) long perm₁ t₁).2 d2 perm₂ t₂ =
      (Result.ok, some (Node.file
        (headerLine t₁ ++ LF :: (wireFormat d2 t₂ ++ (long ++ LF :: (SnippetFooter ++ [LF]))))
        mode)) := by
  obtain ⟨h, e1, hh, -, hhp⟩ := headerLine_spec t₁
  have hne : long ≠ [] := by
    rintro rfl
    exact absurd hlen (by decide)
  have hlast : ¬ HasSuffix long [LF] = true := by
    rw [HasSuffix_LF]
    intro hl
    exact hlf (List.mem_of_getLast?_eq_some hl)
  have hfirst : WriteSnippet (OS.quiet umask) (some (Node.file [] mode)) long perm₁ t₁ =
      (Result.ok, some (Node.file
        (joinLines [] ++ (h ++ LF :: (joinLines [] ++ (long ++ LF :: (SnippetFooter ++ [LF])))))
        mode)) := by
    rw [WriteSnippet_file, if_pos rfl, snippetBlock, if_neg hlast, e1]
    simp [joinLines]
  have hl : MaxScanTokenSize ≤ (long ++ LF :: (SnippetFooter ++ [LF])).length ∧
      LF ∉ (long ++ LF :: (SnippetFooter ++ [LF])).take MaxScanTokenSize := by
    constructor
    · rw [List.length_append]; omega
    · rw [List.take_append_of_le_length hlen]
      exact fun hm => hlf (List.mem_of_mem_take hm)
  have hfind := findConfiguration_tooLong_inside [] [] h
    (long ++ LF :: (SnippetFooter ++ [LF])) (by simp) hh hhp (by simp) hl.1 hl.2
  have t1 : List.take (joinLines [] ++ (h ++ LF :: joinLines [])).length
      (joinLines [] ++ (h ++ LF :: (joinLines [] ++ (long ++ LF :: (SnippetFooter ++ [LF]))))) =
      h ++ [LF] := by
    have : joinLines [] ++ (h ++ LF :: (joinLines [] ++ (long ++ LF :: (SnippetFooter ++ [LF])))) =
        (joinLines [] ++ (h ++ LF :: joinLines [])) ++ (long ++ LF :: (SnippetFooter ++ [LF])) := by
      simp [joinLines]
    rw [this, List.take_left' rfl]
    simp [joinLines]
  have t2 : List.drop (joinLines [] ++ (h ++ LF :: joinLines [])).length
      (joinLines [] ++ (h ++ LF :: (joinLines [] ++ (long ++ LF :: (SnippetFooter ++ [LF]))))) =
      long ++ LF :: (SnippetFooter ++ [LF]) := by
    have : joinLines [] ++ (h ++ LF :: (joinLines [] ++ (long ++ LF :: (SnippetFooter ++ [LF])))) =
        (joinLines [] ++ (h ++ LF :: joinLines [])) ++ (long ++ LF :: (SnippetFooter ++ [LF])) := by
      simp [joinLines]
    rw [this, List.drop_left' rfl]
  rw [hfirst, WriteSnippet_of_find _ d2 mode perm₂ t₂ _ _ (by simp) hfind (by simp) (by simp),
    if_pos rfl, snippetBlock_eq_wireFormat, t1, t2, e1]
  simp

theorem longLine_length : MaxScanTokenSize ≤ longLine.length := by
  rw [longLine, List.length_replicate]
  decide

theorem longLine_no_LF : LF ∉ longLine :=
  fun h => absurd (List.eq_of_mem_replicate h) (by decide)

/-! ## `WriteSnippet` when a call may fail -/

/-- What `os.OpenFile` with `O_TRUNC` and `O_CREATE` gives: an error, or a file
of zero bytes, with the mode it had or, if it is new, `perm` less the umask. -/
theorem osOpenFile_cases (os : OS) (fs : FS) (perm : FileMode) :
    (∃ cause, osOpenFile os fs true perm = Except.error cause) ∨
      osOpenFile os fs true perm = Except.ok ([],
        match fs with
        | some (Node.file _ mode) => mode
        | _ => applyUmask perm os.umask) := by
  cases h : os.openErr with
  | some cause => exact Or.inl ⟨cause, by simp [osOpenFile, h]⟩
  | none =>
    match fs with
    | none => exact Or.inr (by simp [osOpenFile, h])
    | some (Node.file content mode) => exact Or.inr (by simp [osOpenFile, h])
    | some (Node.dir mode) => exact Or.inl ⟨OSError.EISDIR, by simp [osOpenFile, h]⟩

/-- The replacement when the file cannot be opened: a file error, the path as it
was, one call of `OpenFile`. -/
theorem replace_of_openErr (os : OS) (fs : FS) (data : List Byte) (perm : FileMode) (now : Time)
    (b : List Byte) (cause : OSError) (hopen : osOpenFile os fs true perm = Except.error cause) :
    WriteSnippet.replace os fs data perm now b = (Result.fileError, fs, [Event.openFile perm]) := by
  simp only [WriteSnippet.replace, hopen]

/-- The replacement when the file is opened: the splice is written after what
the open has left of the file, and the call ends with nil. -/
theorem replace_of_open (os : OS) (fs : FS) (data : List Byte) (perm : FileMode) (now : Time)
    (b c : List Byte) (mode : FileMode)
    (hopen : osOpenFile os fs true perm = Except.ok (c, mode)) :
    WriteSnippet.replace os fs data perm now b =
      (Result.ok, some (Node.file
        (c ++ (if b = [] then snippetBlock data now
          else b.take (findConfiguration b).2.1.toNat ++
            (if (findConfiguration b).2.1 = (findConfiguration b).2.2 then [LF] else []) ++
            snippetBlock data now ++ b.drop (findConfiguration b).2.2.toNat)) mode),
        [Event.openFile perm]) := by
  obtain ⟨h0, h1, h2⟩ := findConfiguration_bounds b
  by_cases hb : b = []
  · subst hb
    simp [WriteSnippet.replace, hopen]
  · have hpos : b.length > 0 := List.length_pos.mpr hb
    simp only [WriteSnippet.replace, hopen, hpos, if_true, if_neg hb,
      sliceTo_isSome b _ h0 (by omega), sliceFrom_isSome b _ (by omega) h2]
    simp

/-- The replacement calls `OpenFile` once, with the permission it was given. -/
theorem replace_events (os : OS) (fs : FS) (data : List Byte) (perm : FileMode) (now : Time)
    (b : List Byte) :
    (WriteSnippet.replace os fs data perm now b).2.2 = [Event.openFile perm] := by
  rcases osOpenFile_cases os fs perm with ⟨cause, h⟩ | h
  · rw [replace_of_openErr os fs data perm now b cause h]
  · rw [replace_of_open os fs data perm now b _ _ h]

/-- The replacement ends with nil or with a file error, never in a panic. -/
theorem replace_no_panic (os : OS) (fs : FS) (data : List Byte) (perm : FileMode) (now : Time)
    (b : List Byte) :
    (WriteSnippet.replace os fs data perm now b).1 ≠ Result.panic := by
  rcases osOpenFile_cases os fs perm with ⟨cause, h⟩ | h
  · rw [replace_of_openErr os fs data perm now b cause h]; simp
  · rw [replace_of_open os fs data perm now b _ _ h]; simp

/-- The replacement on a regular file: the file keeps its mode, whether it is
rewritten or the open fails. -/
theorem replace_file (os : OS) (content data : List Byte) (mode perm : FileMode) (now : Time)
    (b : List Byte) :
    WriteSnippet.replace os (some (Node.file content mode)) data perm now b =
        (Result.ok, some (Node.file
          (if b = [] then snippetBlock data now
            else b.take (findConfiguration b).2.1.toNat ++
              (if (findConfiguration b).2.1 = (findConfiguration b).2.2 then [LF] else []) ++
              snippetBlock data now ++ b.drop (findConfiguration b).2.2.toNat) mode),
          [Event.openFile perm]) ∨
      WriteSnippet.replace os (some (Node.file content mode)) data perm now b =
        (Result.fileError, some (Node.file content mode), [Event.openFile perm]) := by
  rcases osOpenFile_cases os (some (Node.file content mode)) perm with ⟨cause, h⟩ | h
  · exact Or.inr (replace_of_openErr os _ data perm now b cause h)
  · left
    rw [replace_of_open os _ data perm now b _ _ h]
    simp

/-- The part of `WriteSnippet` from the read on ends in a file error before any
open, or it is the replacement, on the content of the file or on no content. -/
theorem read_cases (os : OS) (fs : FS) (data : List Byte) (perm : FileMode) (now : Time) :
    WriteSnippet.read os fs data perm now = (Result.fileError, fs, []) ∨
      WriteSnippet.read os fs data perm now = WriteSnippet.replace os fs data perm now [] ∨
      ∃ b, fs.content = some b ∧
        WriteSnippet.read os fs data perm now = WriteSnippet.replace os fs data perm now b := by
  unfold WriteSnippet.read
  cases h : ioutilReadFile os fs with
  | error err =>
    by_cases he : osIsNotExist err = true
    · simp [he]
    · simp [he]
  | ok b =>
    right; right
    refine ⟨b, ?_, rfl⟩
    unfold ioutilReadFile at h
    cases hr : os.readErr with
    | some cause => simp [hr] at h
    | none =>
      match fs with
      | none => simp [hr] at h
      | some (Node.dir _) => simp [hr] at h
      | some (Node.file c m) =>
        simp only [hr] at h
        cases h
        rfl

/-- The function `WriteSnippet` ends in a file error before the read, or it goes
on to the read with the mode of the path, when `os.Stat` finds it, or with the
permission passed. -/
theorem WriteSnippetRun_cases (os : OS) (fs : FS) (data : List Byte) (perm : FileMode)
    (now : Time) :
    WriteSnippetRun os fs data perm now = (Result.fileError, fs, []) ∨
      WriteSnippetRun os fs data perm now = WriteSnippet.read os fs data perm now ∨
      ∃ st, osStat os fs = Except.ok st ∧
        WriteSnippetRun os fs data perm now = WriteSnippet.read os fs data st.Mode now := by
  unfold WriteSnippetRun
  cases h : osStat os fs with
  | error err =>
    by_cases he : osIsNotExist err = true
    · simp [he]
    · simp [he]
  | ok st => exact Or.inr (Or.inr ⟨st, rfl, rfl⟩)

/-- When `os.Stat` finds a regular file, `WriteSnippet` goes on with the mode of
the file in place of the permission passed. -/
theorem WriteSnippetRun_stat_file (os : OS) (content data : List Byte) (mode perm : FileMode)
    (now : Time) (hstat : os.statErr = none) :
    WriteSnippetRun os (some (Node.file content mode)) data perm now =
      WriteSnippet.read os (some (Node.file content mode)) data mode now := by
  simp [WriteSnippetRun, osStat, hstat]

/-- When `os.Stat` reports that the path does not exist, `WriteSnippet` goes on
with the permission passed. -/
theorem WriteSnippetRun_stat_none (os : OS) (data : List Byte) (perm : FileMode)
    (now : Time) (hstat : os.statErr = none) :
    WriteSnippetRun os none data perm now = WriteSnippet.read os none data perm now := by
  simp [WriteSnippetRun, osStat, hstat, osIsNotExist]

/-- Every call of `OpenFile` from the read on has the permission of that part. -/
theorem read_events (os : OS) (fs : FS) (data : List Byte) (perm : FileMode) (now : Time) :
    ∀ e ∈ (WriteSnippet.read os fs data perm now).2.2, e = Event.openFile perm := by
  intro e he
  rcases read_cases os fs data perm now with h | h | ⟨b, -, h⟩
  · rw [h] at he; simp at he
  · rw [h, replace_events] at he; simpa using he
  · rw [h, replace_events] at he; simpa using he

/-- From the read on, `WriteSnippet` never ends in a panic. -/
theorem read_no_panic (os : OS) (fs : FS) (data : List Byte) (perm : FileMode) (now : Time) :
    (WriteSnippet.read os fs data perm now).1 ≠ Result.panic := by
  rcases read_cases os fs data perm now with h | h | ⟨b, -, h⟩
  · rw [h]; simp
  · rw [h]; exact replace_no_panic _ _ _ _ _ _
  · rw [h]; exact replace_no_panic _ _ _ _ _ _

/-- The function `WriteSnippet` never ends in a panic, whatever the path holds
and whichever call fails. -/
theorem WriteSnippetRun_no_panic (os : OS) (fs : FS) (data : List Byte) (perm : FileMode)
    (now : Time) :
    (WriteSnippetRun os fs data perm now).1 ≠ Result.panic := by
  rcases WriteSnippetRun_cases os fs data perm now with h | h | ⟨st, -, h⟩
  · rw [h]; simp
  · rw [h]; exact read_no_panic _ _ _ _ _
  · rw [h]; exact read_no_panic _ _ _ _ _

/-- From the read on, a regular file keeps its mode. -/
theorem read_file_mode (os : OS) (content data : List Byte) (mode perm : FileMode) (now : Time) :
    ∃ c, (WriteSnippet.read os (some (Node.file content mode)) data perm now).2.1 =
      some (Node.file c mode) := by
  rcases read_cases os (some (Node.file content mode)) data perm now with h | h | ⟨b, -, h⟩
  · rw [h]; exact ⟨_, rfl⟩
  · rcases replace_file os content data mode perm now [] with h' | h' <;>
      (rw [h, h']; exact ⟨_, rfl⟩)
  · rcases replace_file os content data mode perm now b with h' | h' <;>
      (rw [h, h']; exact ⟨_, rfl⟩)

/-- A regular file keeps its mode through `WriteSnippet`, whichever call fails. -/
theorem WriteSnippet_file_mode (os : OS) (content data : List Byte) (mode perm : FileMode)
    (now : Time) :
    ∃ c, (WriteSnippet os (some (Node.file content mode)) data perm now).2 =
      some (Node.file c mode) := by
  unfold WriteSnippet
  rcases WriteSnippetRun_cases os (some (Node.file content mode)) data perm now with
    h | h | ⟨st, -, h⟩
  · rw [h]; exact ⟨_, rfl⟩
  · rw [h]; exact read_file_mode _ _ _ _ _ _
  · rw [h]; exact read_file_mode _ _ _ _ _ _

/-- On a path that does not exist, when every call goes through, `WriteSnippet`
creates the file with the snippet, the permission passed less the umask for its
mode, and has called `OpenFile` with the permission passed. -/
theorem WriteSnippetRun_none (umask : Nat) (data : List Byte) (perm : FileMode) (now : Time) :
    WriteSnippetRun (OS.quiet umask) none data perm now =
      (Result.ok, some (Node.file (snippetBlock data now) (applyUmask perm umask)),
        [Event.openFile perm]) := rfl

/-- On a regular file, when every call goes through, `WriteSnippet` has called
`OpenFile` with the mode of the file. -/
theorem WriteSnippetRun_file_events {umask : Nat} (b data : List Byte) (mode perm : FileMode)
    (now : Time) :
    (WriteSnippetRun (OS.quiet umask) (some (Node.file b mode)) data perm now).2.2 =
      [Event.openFile mode] := by
  rw [WriteSnippetRun_quiet_file, replace_events]

/-! ## The counter, on an input that is read to its end -/

/-- The counter of the offset-tracking scanner as far as the scanner gets. For
every input `b`, the counter after the k-th line the scanner yields is the k-th
line end of `b`:
the offset just after the line feed of that line, or the end of `b` for a last
line without a line feed, which is the number of bytes consumed for the lines
1 to k. The counter and the unread bytes always add up to the length of `b`,
and once the input is exhausted (nothing is left unread) the counter is the
length of `b` and every line end has been passed. The input is exhausted
whenever each of its lines is shorter than `MaxScanTokenSize`. -/
theorem scanAll_counter (b : List Byte) :
    (scanAll (b.length + 1) ⟨0⟩ b).1.map Prod.snd =
        ((lineEnds 0 b).take (scanAll (b.length + 1) ⟨0⟩ b).1.length).map Int.ofNat ∧
      (scanAll (b.length + 1) ⟨0⟩ b).2.1.offset +
          ((scanAll (b.length + 1) ⟨0⟩ b).2.2.length : Int) = (b.length : Int) ∧
      ((scanAll (b.length + 1) ⟨0⟩ b).2.2 = [] →
        (scanAll (b.length + 1) ⟨0⟩ b).2.1.offset = (b.length : Int) ∧
        (scanAll (b.length + 1) ⟨0⟩ b).1.map Prod.snd = (lineEnds 0 b).map Int.ofNat) ∧
      ((∀ l ∈ splitLines b, l.length < MaxScanTokenSize) →
        (scanAll (b.length + 1) ⟨0⟩ b).2.2 = []) := by
  obtain ⟨h1, h2, h3⟩ := scanAll_spec (b.length + 1) b ⟨0⟩ 0 rfl (by omega)
  refine ⟨h1, by simpa using h2, ?_, ?_⟩
  · intro he
    simpa using h3 he
  · intro hall
    obtain ⟨ls, last, e, hls, hlast, -, -⟩ :=
      exists_scannable_lines b (fun _ => True) (fun l hl => ⟨hall l hl, trivial⟩)
    have := scanAll_exhausts (b.length + 1) ls last ⟨0⟩ (fun l hl => (hls l hl).1) hlast
      (by rw [← e]; omega)
    rw [← e] at this
    exact this

/-- The counter at the input `"ab\r\ncd"`: two lines, the counter is 4 and then
6, and the input is exhausted with the counter at its length. -/
theorem scanAll_counter_example :
    (scanAll ((bytesOf "ab\r\ncd").length + 1) ⟨0⟩ (bytesOf "ab\r\ncd")).1 =
        [(bytesOf "ab", 4), (bytesOf "cd", 6)] ∧
      (scanAll ((bytesOf "ab\r\ncd").length + 1) ⟨0⟩ (bytesOf "ab\r\ncd")).2.1.offset =
        ((bytesOf "ab\r\ncd").length : Int) ∧
      (scanAll ((bytesOf "ab\r\ncd").length + 1) ⟨0⟩ (bytesOf "ab\r\ncd")).1.map Prod.snd =
        (lineEnds 0 (bytesOf "ab\r\ncd")).map Int.ofNat :=
  ⟨by decide, (scanAll_counter (bytesOf "ab\r\ncd")).2.2.1 (by decide)⟩

/-- A line of `MaxScanTokenSize` bytes or more at the start of what is unread
ends the loop of the scanner there: no line is yielded and the counter stays. -/
theorem scanAll_tooLong (fuel : Nat) (o : offsetCounter) (b : List Byte)
    (hlen : MaxScanTokenSize ≤ b.length) (hl : LF ∉ b.take MaxScanTokenSize) :
    scanAll fuel o b = ([], o, b) := by
  cases fuel with
  | zero => rfl
  | succ f => rw [scanAll, Scan_tooLong o b hlen hl]

/-- With force mode off, when `os.Stat` fails for another reason than that the
path does not exist, `WriteFile` returns that error wrapped, asks nothing and
writes nothing. -/
theorem WriteFile_of_statErr (env : Env) (os : OS) (fs : FS) (filename : String)
    (data : List Byte) (perm : FileMode) (cause : OSError) (hforce : env.IsForce = false)
    (hstat : os.statErr = some cause) (hcause : cause ≠ OSError.ENOENT) :
    WriteFile env os fs filename data perm = (some (Error.wrapf cause), fs, []) := by
  simp [WriteFile, osStat, hstat, hforce, osIsNotExist, hcause]

/-- When `os.Stat` fails for another reason than that the path does not exist,
`WriteSnippet` returns a file error and has not opened the file. -/
theorem WriteSnippetRun_of_statErr (os : OS) (fs : FS) (data : List Byte) (perm : FileMode)
    (now : Time) (cause : OSError) (hstat : os.statErr = some cause)
    (hcause : cause ≠ OSError.ENOENT) :
    WriteSnippetRun os fs data perm now = (Result.fileError, fs, []) := by
  simp [WriteSnippetRun, osStat, hstat, osIsNotExist, hcause]

/-- When the read of the file fails for another reason than that the path does
not exist, `WriteSnippet` returns a file error and has not opened the file. -/
theorem WriteSnippetRun_of_readErr (os : OS) (fs : FS) (data : List Byte) (perm : FileMode)
    (now : Time) (cause : OSError) (hread : os.readErr = some cause)
    (hcause : cause ≠ OSError.ENOENT) :
    WriteSnippetRun os fs data perm now = (Result.fileError, fs, []) := by
  rcases WriteSnippetRun_cases os fs data perm now with h | h | ⟨st, -, h⟩
  · exact h
  · rw [h]; simp [WriteSnippet.read, ioutilReadFile, hread, osIsNotExist, hcause]
  · rw [h]; simp [WriteSnippet.read, ioutilReadFile, hread, osIsNotExist, hcause]

/-- When the file cannot be opened, `WriteSnippet` returns a file error and the
path is as it was. -/
theorem WriteSnippet_of_openErr (os : OS) (fs : FS) (data : List Byte) (perm : FileMode)
    (now : Time) (cause : OSError) (hopen : os.openErr = some cause) :
    WriteSnippet os fs data perm now = (Result.fileError, fs) := by
  have ho : ∀ p, osOpenFile os fs true p = Except.error cause := by
    intro p; simp [osOpenFile, hopen]
  have hr : ∀ p, (WriteSnippet.read os fs data p now).1 = Result.fileError ∧
      (WriteSnippet.read os fs data p now).2.1 = fs := by
    intro p
    rcases read_cases os fs data p now with h | h | ⟨b, -, h⟩
    · rw [h]; exact ⟨rfl, rfl⟩
    · rw [h, replace_of_openErr os fs data p now [] cause (ho p)]; exact ⟨rfl, rfl⟩
    · rw [h, replace_of_openErr os fs data p now b cause (ho p)]; exact ⟨rfl, rfl⟩
  unfold WriteSnippet
  rcases WriteSnippetRun_cases os fs data perm now with h | h | ⟨st, -, h⟩
  · rw [h]
  · rw [h, (hr perm).1, (hr perm).2]
  · rw [h, (hr st.Mode).1, (hr st.Mode).2]

/-- The file primitive `OpenFile` of `AppendNewLine` is `os.OpenFile` on an
operating system that lets every call through and has the umask 0. -/
theorem OpenFile_eq_osOpenFile (fs : FS) (truncate : Bool) (perm : FileMode) :
    OpenFile fs truncate perm =
      match osOpenFile (OS.quiet 0) fs truncate perm with
      | Except.ok opened => Except.ok ⟨opened.1, opened.2, 0, none⟩
      | Except.error cause => Except.error (Error.fileError cause) := by
  match fs with
  | none => simp [OpenFile, osOpenFile, OS.quiet, applyUmask]
  | some (Node.file content mode) => simp [OpenFile, osOpenFile, OS.quiet]
  | some (Node.dir mode) => simp [OpenFile, osOpenFile, OS.quiet]

/-! ## The claims -/

/-- C1: the claim fails on the code for a content with a line the scanner cannot
buffer. For the prior content `pre ++ H ++ body ++ F ++ post` with `pre` one
line of 70000 bytes `a`, `H` the bare header line, `F` the bare footer line and
`body`, `post` empty, `WriteSnippet` leaves a line feed, the new snippet and
then the whole prior content, old snippet included, and not
`pre ++ snippet ++ post`. -/
theorem WriteSnippet_block_after_long_line :
    WriteSnippet (OS.quiet 18)
        (some (Node.file
          ((longLine ++ [LF]) ++ (SnippetHeader ++ [LF]) ++ [] ++ (SnippetFooter ++ [LF]) ++ [])
          420))
        (bytesOf "x") 384 clock =
      (Result.ok, some (Node.file
        (LF :: (wireFormat (bytesOf "x") clock ++
          (longLine ++ (LF :: (SnippetHeader ++ LF :: (SnippetFooter ++ [LF])))))) 420)) ∧
    LF :: (wireFormat (bytesOf "x") clock ++
          (longLine ++ (LF :: (SnippetHeader ++ LF :: (SnippetFooter ++ [LF]))))) ≠
      (longLine ++ [LF]) ++ wireFormat (bytesOf "x") clock ++ [] := by
  constructor
  · have h := longLine_tooLong (LF :: (SnippetHeader ++ LF :: (SnippetFooter ++ [LF])))
    have e : (longLine ++ [LF]) ++ (SnippetHeader ++ [LF]) ++ [] ++ (SnippetFooter ++ [LF]) ++ [] =
        joinLines [] ++ (longLine ++ (LF :: (SnippetHeader ++ LF :: (SnippetFooter ++ [LF])))) := by
      simp only [joinLines, List.append_assoc, List.nil_append, List.append_nil,
        List.singleton_append, List.cons_append]
    rw [e, WriteSnippet_tooLong [] _ _ _ _ _ (by simp) h.1 h.2]
    rfl
  · rw [longLine_cons]
    intro h
    exact absurd (List.cons.inj h).1 (by decide)

/-- C2: the claim fails on the code when the header line ends in `"\r\n"`. In
the content `"# autogenerated by step\r\n# end\r\n"` the header line begins at
offset 0 and the footer line ends at offset 32; `findConfiguration` returns
`end = 32` but `start = 1`, because `start` is computed as if every line had a
terminator of one byte. -/
theorem findConfiguration_crlf_header :
    findConfiguration (bytesOf "# autogenerated by step\r\n# end\r\n") = ([], 1, 32) ∧
      (findConfiguration (bytesOf "# autogenerated by step\r\n# end\r\n")).2.1 ≠ 0 ∧
      (bytesOf "# autogenerated by step\r\n# end\r\n").length = 32 := by
  decide

/-- C3, as the code has it: a header line with no footer line after it does not
make a snippet. When no call to the operating system fails, whatever the umask,
and the lines are shorter than `MaxScanTokenSize`, the header
line `h` is the first one and no later line starts with the footer,
`findConfiguration` returns `start = end =` the length of the content, and
`WriteSnippet` leaves the whole prior content, a line feed and the new snippet:
the header line and what follows it survive. The header line may be the last
line and lack its line feed (`tail = []`). -/
theorem WriteSnippet_header_without_footer (umask : Nat) (pre body : List (List Byte))
    (h last tail data : List Byte) (mode perm : FileMode) (now : Time)
    (hpre : ∀ l ∈ pre, scannable l ∧ HasPrefix l SnippetHeader = false)
    (hh : scannable h) (hhp : HasPrefix h SnippetHeader = true)
    (hbody : ∀ l ∈ body, scannable l ∧ HasPrefix l SnippetFooter = false)
    (hlast : scannable last) (hlastp : HasPrefix last SnippetFooter = false)
    (htail : tail = [] ∨ tail = LF :: (joinLines body ++ last)) :
    (findConfiguration (joinLines pre ++ (h ++ tail))).2 =
        (((joinLines pre ++ (h ++ tail)).length : Int),
          ((joinLines pre ++ (h ++ tail)).length : Int)) ∧
      WriteSnippet (OS.quiet umask)
          (some (Node.file (joinLines pre ++ (h ++ tail)) mode)) data perm now =
        (Result.ok, some (Node.file
          (joinLines pre ++ (h ++ tail) ++ [LF] ++ wireFormat data now) mode)) := by
  have hne : joinLines pre ++ (h ++ tail) ≠ [] := by
    have : h ≠ [] := by
      rintro rfl
      revert hhp
      decide
    simp [this]
  have hfind : (findConfiguration (joinLines pre ++ (h ++ tail))).2 =
      (((joinLines pre ++ (h ++ tail)).length : Int),
        ((joinLines pre ++ (h ++ tail)).length : Int)) := by
    rcases htail with rfl | rfl
    · rw [List.append_nil]
      exact findConfiguration_no_header pre h hpre hh
    · exact findConfiguration_no_footer pre body h last hpre hh hhp hbody hlast hlastp
  refine ⟨hfind, ?_⟩
  rw [WriteSnippet_of_find _ data mode perm now _ _ hne hfind (le_refl _) (le_refl _),
    snippetBlock_eq_wireFormat, List.take_length, List.drop_length, if_pos rfl, List.append_nil]

/-- C3 fails as stated: for the prior content `"# autogenerated by step\nx\n"`,
a header line at offset 0 with no footer line after it, `findConfiguration`
returns `start = end = 26`, not `start = 0`, and `WriteSnippet` keeps the
header line and the line after it in front of the new snippet. -/
theorem WriteSnippet_header_without_footer_counterexample :
    findConfiguration (bytesOf "# autogenerated by step\nx\n") = ([bytesOf "x"], 26, 26) ∧
    (findConfiguration (bytesOf "# autogenerated by step\nx\n")).2.1 ≠ 0 ∧
    WriteSnippet (OS.quiet 18) (some (Node.file (bytesOf "# autogenerated by step\nx\n") 420))
        (bytesOf "y") 384 clock =
      (Result.ok, some (Node.file
        (bytesOf "# autogenerated by step\nx\n\n" ++ wireFormat (bytesOf "y") clock) 420)) ∧
    (WriteSnippet (OS.quiet 18) (some (Node.file (bytesOf "# autogenerated by step\nx\n") 420))
        (bytesOf "y") 384 clock).2 ≠ some (Node.file (wireFormat (bytesOf "y") clock) 420) := by
  decide

/-- The amended C3 at `"a\n# autogenerated by step\nx\ny"`: a header line on the
second line and no footer line after it. -/
theorem WriteSnippet_header_without_footer_witness :
    (findConfiguration (bytesOf "a\n# autogenerated by step\nx\ny")).2 = (29, 29) ∧
      WriteSnippet (OS.quiet 18) (some (Node.file (bytesOf "a\n# autogenerated by step\nx\ny") 420))
          (bytesOf "z") 384 clock =
        (Result.ok, some (Node.file
          (bytesOf "a\n# autogenerated by step\nx\ny\n" ++ wireFormat (bytesOf "z") clock)
          420)) :=
  WriteSnippet_header_without_footer 18 [bytesOf "a"] [bytesOf "x"]
    (bytesOf "# autogenerated by step") (bytesOf "y") (bytesOf "\nx\ny") (bytesOf "z") 420 384
    clock (by decide) (by decide) (by decide) (by decide) (by decide) (by decide) (by decide)

/-- C4, as the code has it: two calls of `WriteSnippet` in a row, neither with a
call to the operating system that fails, with the data
`d1` and then `d2`, on a regular file whose lines are shorter than
`MaxScanTokenSize` and which either has no header line or holds one well-formed
snippet, when no line of `d1` starts with the footer. The final content is the
bytes before the insertion point of the first call (the `start` it found), a
line feed when the first call found no snippet in a file that is not empty, the
snippet with `d2` for its body, and the bytes after the `end` the first call
found. When moreover no line of those kept bytes or of `d2` starts with the
header or the footer, the final content has exactly one header line and exactly
one footer line. -/
theorem WriteSnippet_twice (umask : Nat) (prior d1 d2 : List Byte) (pre body : List (List Byte))
    (h f post : List Byte) (mode perm₁ perm₂ : FileMode) (t₁ t₂ : Time)
    (hprior : noHeader prior ∨ hasBlock prior pre body h f post)
    (hd1 : ∀ l ∈ splitLines d1, l.length < MaxScanTokenSize ∧ HasPrefix l SnippetFooter = false) :
    WriteSnippet (OS.quiet umask)
        (WriteSnippet (OS.quiet umask) (some (Node.file prior mode)) d1 perm₁ t₁).2 d2 perm₂ t₂ =
        (Result.ok, some (Node.file
          (prior.take (findConfiguration prior).2.1.toNat ++
            (if prior ≠ [] ∧ (findConfiguration prior).2.1 = (findConfiguration prior).2.2
              then [LF] else []) ++
            wireFormat d2 t₂ ++ prior.drop (findConfiguration prior).2.2.toNat) mode)) ∧
      ((∀ l ∈ splitLines (prior.take (findConfiguration prior).2.1.toNat) ++
            splitLines (prior.drop (findConfiguration prior).2.2.toNat) ++ splitLines d2,
          HasPrefix l SnippetHeader = false ∧ HasPrefix l SnippetFooter = false) →
        countLines SnippetHeader
            (prior.take (findConfiguration prior).2.1.toNat ++
              (if prior ≠ [] ∧ (findConfiguration prior).2.1 = (findConfiguration prior).2.2
                then [LF] else []) ++
              wireFormat d2 t₂ ++ prior.drop (findConfiguration prior).2.2.toNat) = 1 ∧
          countLines SnippetFooter
            (prior.take (findConfiguration prior).2.1.toNat ++
              (if prior ≠ [] ∧ (findConfiguration prior).2.1 = (findConfiguration prior).2.2
                then [LF] else []) ++
              wireFormat d2 t₂ ++ prior.drop (findConfiguration prior).2.2.toNat) = 1) := by
  obtain ⟨ps, h1, h2, h3, -, h5⟩ :=
    WriteSnippet_WriteSnippet prior d1 d2 pre body h f post mode perm₁ perm₂ t₁ t₂ hprior hd1
  rw [h3]
  refine ⟨h5, ?_⟩
  intro hall
  apply countLines_snippet
  · intro l hl
    refine ⟨(h1 l hl).1.1, ?_⟩
    rcases h2 l hl with hm | rfl
    · exact hall l (List.mem_append_left _ (List.mem_append_left _ hm))
    · decide
  · intro l hl
    exact hall l (List.mem_append_right _ hl)
  · intro l hl
    exact hall l (List.mem_append_left _ (List.mem_append_right _ hl))

/-- C4 fails as stated. With the data `"# end"` for the first call on an empty
file, the second call takes the first line of the old body for the footer and
leaves the old footer line behind: two footer lines. And on the prior content
`"# autogenerated by step\n"`, a header line without a footer, the first call
inserts at offset 24 and the second call replaces the content from offset 0, so
the 24 bytes before the insertion point are not kept. -/
theorem WriteSnippet_twice_counterexample :
    (WriteSnippet (OS.quiet 18)
        (WriteSnippet (OS.quiet 18) (some (Node.file [] 420)) (bytesOf "# end") 384 clock).2
          (bytesOf "x") 384 laterClock =
        (Result.ok, some (Node.file (wireFormat (bytesOf "x") laterClock ++ bytesOf "# end\n")
          420)) ∧
      countLines SnippetFooter (wireFormat (bytesOf "x") laterClock ++ bytesOf "# end\n") = 2) ∧
    ((findConfiguration (bytesOf "# autogenerated by step\n")).2.1 = 24 ∧
      WriteSnippet (OS.quiet 18)
          (WriteSnippet (OS.quiet 18) (some (Node.file (bytesOf "# autogenerated by step\n") 420))
            (bytesOf "a") 384 clock).2
          (bytesOf "b") 384 laterClock =
        (Result.ok, some (Node.file (wireFormat (bytesOf "b") laterClock) 420)) ∧
      (wireFormat (bytesOf "b") laterClock).take 24 ≠ bytesOf "# autogenerated by step\n") := by
  decide

/-- The amended C4 at the prior content `"foo=1\n"`, with the data `"a"` and
then `"b"`. -/
theorem WriteSnippet_twice_witness :
    WriteSnippet (OS.quiet 18)
        (WriteSnippet (OS.quiet 18)
            (some (Node.file (bytesOf "foo=1\n") 420)) (bytesOf "a") 384 clock).2
        (bytesOf "b") 384 laterClock =
      (Result.ok, some (Node.file
        (bytesOf "foo=1\n\n# autogenerated by step @ 2024-01-02T03:04:06Z\nb\n# end\n") 420)) ∧
    countLines SnippetHeader
        (bytesOf "foo=1\n\n# autogenerated by step @ 2024-01-02T03:04:06Z\nb\n# end\n") = 1 ∧
    countLines SnippetFooter
        (bytesOf "foo=1\n\n# autogenerated by step @ 2024-01-02T03:04:06Z\nb\n# end\n") = 1 := by
  have h := WriteSnippet_twice 18 (bytesOf "foo=1\n") (bytesOf "a") (bytesOf "b") [] [] [] [] []
    420 384 384 clock laterClock (Or.inl (by decide)) (by decide)
  have e : (bytesOf "foo=1\n").take (findConfiguration (bytesOf "foo=1\n")).2.1.toNat ++
      (if bytesOf "foo=1\n" ≠ [] ∧ (findConfiguration (bytesOf "foo=1\n")).2.1 =
        (findConfiguration (bytesOf "foo=1\n")).2.2 then [LF] else []) ++
      wireFormat (bytesOf "b") laterClock ++
      (bytesOf "foo=1\n").drop (findConfiguration (bytesOf "foo=1\n")).2.2.toNat =
      bytesOf "foo=1\n\n# autogenerated by step @ 2024-01-02T03:04:06Z\nb\n# end\n" := by
    decide
  rw [e] at h
  exact ⟨h.1, h.2 (by decide)⟩

/-- C5: the claim fails on the code for a content with a line the scanner cannot
buffer. The prior content `"foo=1\n"` followed by a line of 70000 bytes `a` is
not empty and has no header line; `WriteSnippet` puts the line feed and the
snippet before the long line instead of after the whole content. -/
theorem WriteSnippet_insert_before_long_line :
    countLines SnippetHeader (bytesOf "foo=1\n" ++ longLine) = 0 ∧
    WriteSnippet (OS.quiet 18)
        (some (Node.file (bytesOf "foo=1\n" ++ longLine) 420)) (bytesOf "bar=2") 384
        clock =
      (Result.ok, some (Node.file
        (bytesOf "foo=1\n" ++ LF :: (wireFormat (bytesOf "bar=2") clock ++ longLine)) 420)) ∧
    bytesOf "foo=1\n" ++ LF :: (wireFormat (bytesOf "bar=2") clock ++ longLine) ≠
      (bytesOf "foo=1\n" ++ longLine) ++ bytesOf "\n" ++ wireFormat (bytesOf "bar=2") clock := by
  have e : bytesOf "foo=1\n" = joinLines [bytesOf "foo=1"] := by decide
  have hlf : LF ∉ longLine := fun h => absurd (List.eq_of_mem_replicate h) (by decide)
  refine ⟨?_, ?_, ?_⟩
  · unfold countLines
    rw [e, splitLines_joinLines _ _ (by decide), splitLines_last _ hlf (by rw [longLine_cons]; exact List.cons_ne_nil _ _),
      longLine_cons]
    rfl
  · have h := longLine_tooLong []
    rw [List.append_nil] at h
    rw [e, WriteSnippet_tooLong _ _ _ _ _ _ (by decide) h.1 h.2]
  · rw [longLine_cons]
    intro h
    rw [List.append_assoc, List.append_assoc] at h
    have h' := @List.append_cancel_left _ (bytesOf "foo=1\n") _ _ h
    exact absurd (List.cons.inj h').1 (by decide)

/-- C7: for every content `b` the offsets `findConfiguration` returns satisfy
`0 ≤ start ≤ end ≤ len(b)`, so the slices `b[:start]` and `b[end:]` are in
range, and `WriteSnippet` never ends in the panic of a slice out of range,
whatever the path holds and whichever call to the operating system fails; when
none fails it ends with nil on every regular file. -/
theorem findConfiguration_in_range (b : List Byte) :
    (0 ≤ (findConfiguration b).2.1 ∧ (findConfiguration b).2.1 ≤ (findConfiguration b).2.2 ∧
        (findConfiguration b).2.2 ≤ (b.length : Int)) ∧
      (sliceTo b (findConfiguration b).2.1).isSome = true ∧
      (sliceFrom b (findConfiguration b).2.2).isSome = true ∧
      (∀ (umask : Nat) (mode perm : FileMode) (data : List Byte) (now : Time),
        (WriteSnippet (OS.quiet umask) (some (Node.file b mode)) data perm now).1 = Result.ok) ∧
      ∀ (os : OS) (fs : FS) (perm : FileMode) (data : List Byte) (now : Time),
        (WriteSnippet os fs data perm now).1 ≠ Result.panic := by
  obtain ⟨h0, h1, h2⟩ := findConfiguration_bounds b
  refine ⟨⟨h0, h1, h2⟩, ?_, ?_, ?_, ?_⟩
  · rw [sliceTo_isSome b _ h0 (by omega)]; rfl
  · rw [sliceFrom_isSome b _ (by omega) h2]; rfl
  · intro umask mode perm data now
    rw [WriteSnippet_file]
  · intro os fs perm data now
    exact WriteSnippetRun_no_panic os fs data perm now

/-- C8: the claim fails on the code for a content with a line the scanner cannot
buffer. A content of 70000 bytes `a` has no header line, and `findConfiguration`
returns `start = end = 0`, not its length. -/
theorem findConfiguration_long_line :
    countLines SnippetHeader longLine = 0 ∧ longLine.length = 70000 ∧
      findConfiguration longLine = ([], 0, 0) ∧ ((0 : Int), (0 : Int)) ≠ (70000, 70000) := by
  have hlf : LF ∉ longLine := fun h => absurd (List.eq_of_mem_replicate h) (by decide)
  refine ⟨?_, List.length_replicate _ _, ?_, by decide⟩
  · unfold countLines
    rw [splitLines_last _ hlf (by rw [longLine_cons]; exact List.cons_ne_nil _ _), longLine_cons]
    rfl
  · have h := longLine_tooLong []
    rw [List.append_nil] at h
    exact findConfiguration_tooLong [] longLine (by simp) h.1 h.2

/-- C9: the claim fails on the code for an input with a line the scanner cannot
buffer. On an input of 70000 bytes `a` the scanner yields no line and its loop
ends with the whole input unread and the counter at 0, not at 70000, however
many rounds the loop is given. On `"ab\n"` followed by those 70000 bytes the
scanner yields the line `ab` with the counter at 3 and its loop ends there, the
counter at 3 and not at 70003. -/
theorem scanAll_long_line :
    (∀ fuel, scanAll fuel ⟨0⟩ longLine = ([], ⟨0⟩, longLine)) ∧
      longLine.length = 70000 ∧
      (∀ fuel, scanAll (fuel + 1) ⟨0⟩ (bytesOf "ab\n" ++ longLine) =
        ([(bytesOf "ab", 3)], ⟨3⟩, longLine)) ∧
      (bytesOf "ab\n" ++ longLine).length = 70003 := by
  have h := longLine_tooLong []
  rw [List.append_nil] at h
  refine ⟨fun fuel => scanAll_tooLong fuel _ _ h.1 h.2, List.length_replicate _ _, ?_, ?_⟩
  · intro fuel
    have e : bytesOf "ab\n" ++ longLine = bytesOf "ab" ++ LF :: longLine := rfl
    rw [e, scanAll, Scan_line _ _ _ (by decide) (by decide)]
    dsimp only
    rw [scanAll_tooLong fuel _ _ h.1 h.2]
    rfl
  · rw [List.length_append, longLine, List.length_replicate]
    rfl

/-- C10: the claim fails on the code when the header line of the first snippet
ends in `"\r\n"`. In `"# autogenerated by step\r\nold\r\n# end\r\n"` followed by
a second header line the first snippet is the range from 0 to 37;
`findConfiguration` returns `start = 1`, and `WriteSnippet` keeps the byte `#`
of the old header line in front of the new snippet. The bytes after the first
footer line are kept as they are. -/
theorem WriteSnippet_crlf_two_blocks :
    findConfiguration
        (bytesOf "# autogenerated by step\r\nold\r\n# end\r\n# autogenerated by step\r\n") =
      ([bytesOf "old"], 1, 37) ∧
    WriteSnippet (OS.quiet 18)
        (some (Node.file
          (bytesOf "# autogenerated by step\r\nold\r\n# end\r\n# autogenerated by step\r\n") 420))
        (bytesOf "new") 384 clock =
      (Result.ok, some (Node.file
        (bytesOf "#" ++ wireFormat (bytesOf "new") clock ++
          bytesOf "# autogenerated by step\r\n") 420)) := by
  decide

/-- C11: `AppendNewLine` fixes the boundary and nothing else. When no operation
on the file fails, a prior content that is not empty and does not end in a line
feed is followed by one line feed and the data; a prior content that ends in a
line feed or is empty is followed by the data alone; and on a path that does
not exist the file is created with the data as its content. The data is never
altered. -/
theorem AppendNewLine_boundary (prior data : List Byte) (mode perm : FileMode) :
    AppendNewLine noFaults (some (Node.file prior mode)) data perm =
        (none, some (Node.file
          (prior ++ (if prior ≠ [] ∧ prior.getLast? ≠ some LF then [LF] else []) ++ data)
          mode)) ∧
      AppendNewLine noFaults none data perm = (none, some (Node.file data perm)) :=
  ⟨AppendNewLine_file prior data mode perm, rfl⟩

/-- C12: a refusal leaves everything as it was. For every regular file that
exists and that `os.Stat` finds, with force mode off, when the prompt returns an
answer that is `n` or `no` once trimmed and lower-cased, `WriteFile` returns
`ErrFileExists`, the path holds what it held, and the call has asked once and
has not called `ioutil.WriteFile`. -/
theorem WriteFile_refusal (env : Env) (os : OS) (content data : List Byte)
    (mode perm : FileMode)
    (filename str : String) (hforce : env.IsForce = false) (hstat : os.statErr = none)
    (hprompt : env.Prompt ("Would you like to overwrite " ++ filename ++ " [y/n]") =
      Except.ok str)
    (hno : env.ToLower (env.TrimSpace str) = "n" ∨ env.ToLower (env.TrimSpace str) = "no") :
    WriteFile env os (some (Node.file content mode)) filename data perm =
      (some ErrFileExists, some (Node.file content mode),
        [Event.prompt ("Would you like to overwrite " ++ filename ++ " [y/n]")]) :=
  WriteFile_of_no env os content data mode perm filename str hforce hstat hprompt hno

/-- C12 at a file holding `old`, with the answer `" No\n"`. -/
theorem WriteFile_refusal_witness :
    WriteFile (answering " No\n") (OS.quiet 18) (some (Node.file (bytesOf "old") 420)) "f"
        (bytesOf "new") 384 =
      (some ErrFileExists, some (Node.file (bytesOf "old") 420),
        [Event.prompt "Would you like to overwrite f [y/n]"]) :=
  WriteFile_refusal (answering " No\n") (OS.quiet 18) (bytesOf "old") (bytesOf "new") 420 384
    "f" " No\n" rfl rfl rfl (by decide)

/-- C13, as the code has it: with force mode off, `WriteFile` on a path that is
a directory, as `os.Stat` reports it, returns `ErrIsDir`, with no prompt issued
and no write tried, and the directory is left as it is. -/
theorem WriteFile_dir (env : Env) (os : OS) (data : List Byte) (mode perm : FileMode)
    (filename : String) (hforce : env.IsForce = false) (hstat : os.statErr = none) :
    WriteFile env os (some (Node.dir mode)) filename data perm =
      (some ErrIsDir, some (Node.dir mode), []) := by
  simp only [WriteFile, osStat, hstat, hforce, Bool.false_eq_true, if_false, if_true]

/-- C13 fails as stated: with force mode on, `WriteFile` on a directory goes
straight to `ioutil.WriteFile` and returns its error, which is not `ErrIsDir`.
No prompt is issued and the directory is left as it is. -/
theorem WriteFile_dir_counterexample :
    WriteFile ⟨true, fun _ => Except.ok "y", asciiTrimSpace, asciiToLower⟩ (OS.quiet 18)
        (some (Node.dir 493)) "d" (bytesOf "new") 384 =
      (some (Error.pathError OSError.EISDIR), some (Node.dir 493),
        [Event.writeFile (bytesOf "new") 384]) ∧
    Error.pathError OSError.EISDIR ≠ ErrIsDir := by
  decide

/-- The amended C13 at a directory of mode 0755, with a prompt that would
answer `y`. -/
theorem WriteFile_dir_witness :
    WriteFile (answering "y") (OS.quiet 18) (some (Node.dir 493)) "d" (bytesOf "new") 384 =
      (some ErrIsDir, some (Node.dir 493), []) :=
  WriteFile_dir (answering "y") (OS.quiet 18) (bytesOf "new") 493 384 "d" rfl rfl

/-- C16, as the code has it. When `os.Stat` and the read do not fail,
`WriteSnippet` calls `OpenFile` once. On a regular file that exists it passes
the mode of the file, the permission of the caller plays no part in what the
call does, and the file keeps its mode whether the open fails or not; when the
open does not fail the call ends with nil. On a path that does not exist it
passes the permission of the caller, and when the open does not fail the file
is created with that permission less the umask. A directory is never opened:
the call returns a file error and leaves it as it is. -/
theorem WriteSnippet_mode (os : OS) (content data : List Byte) (mode perm perm' : FileMode)
    (now : Time) (hstat : os.statErr = none) (hread : os.readErr = none) :
    ((WriteSnippetRun os (some (Node.file content mode)) data perm now).2.2 =
          [Event.openFile mode] ∧
        WriteSnippetRun os (some (Node.file content mode)) data perm now =
          WriteSnippetRun os (some (Node.file content mode)) data perm' now ∧
        (∃ c, (WriteSnippet os (some (Node.file content mode)) data perm now).2 =
          some (Node.file c mode)) ∧
        (os.openErr = none →
          (WriteSnippet os (some (Node.file content mode)) data perm now).1 = Result.ok)) ∧
      ((WriteSnippetRun os none data perm now).2.2 = [Event.openFile perm] ∧
        (os.openErr = none →
          WriteSnippet os none data perm now =
            (Result.ok, some (Node.file (wireFormat data now) (applyUmask perm os.umask))))) ∧
      WriteSnippetRun os (some (Node.dir mode)) data perm now =
        (Result.fileError, some (Node.dir mode), []) := by
  have hrf : ∀ p, WriteSnippet.read os (some (Node.file content mode)) data p now =
      WriteSnippet.replace os (some (Node.file content mode)) data p now content := by
    intro p
    simp [WriteSnippet.read, ioutilReadFile, hread]
  have hrn : WriteSnippet.read os none data perm now =
      WriteSnippet.replace os none data perm now [] := by
    simp [WriteSnippet.read, ioutilReadFile, hread, osIsNotExist]
  refine ⟨⟨?_, ?_, WriteSnippet_file_mode os content data mode perm now, ?_⟩, ⟨?_, ?_⟩, ?_⟩
  · rw [WriteSnippetRun_stat_file os content data mode perm now hstat, hrf, replace_events]
  · rw [WriteSnippetRun_stat_file os content data mode perm now hstat,
      WriteSnippetRun_stat_file os content data mode perm' now hstat]
  · intro hopen
    have ho : osOpenFile os (some (Node.file content mode)) true mode = Except.ok ([], mode) := by
      simp [osOpenFile, hopen]
    rw [WriteSnippet, WriteSnippetRun_stat_file os content data mode perm now hstat, hrf,
      replace_of_open os _ data mode now content _ _ ho]
  · rw [WriteSnippetRun_stat_none os data perm now hstat, hrn, replace_events]
  · intro hopen
    have ho : osOpenFile os none true perm = Except.ok ([], applyUmask perm os.umask) := by
      simp [osOpenFile, hopen]
    rw [WriteSnippet, WriteSnippetRun_stat_none os data perm now hstat, hrn,
      replace_of_open os _ data perm now [] _ _ ho, ← snippetBlock_eq_wireFormat]
    simp
  · simp [WriteSnippetRun, WriteSnippet.read, osStat, ioutilReadFile, hstat, hread, osIsNotExist]

/-- C16 fails as stated. On a path that does not exist, under the umask 022,
`WriteSnippet` with the permission 0666 creates a file of mode 0644, not 0666.
And a file of mode 0444 that the process may not write is not opened for
writing: the call passes that mode to `OpenFile`, the open fails with `EACCES`
and the call returns a file error. -/
theorem WriteSnippet_mode_counterexample :
    WriteSnippet (OS.quiet 18) none (bytesOf "x") 438 clock =
      (Result.ok, some (Node.file (wireFormat (bytesOf "x") clock) 420)) ∧
    (420 : FileMode) ≠ 438 ∧
    WriteSnippetRun ⟨18, none, none, some OSError.EACCES⟩ (some (Node.file (bytesOf "old") 292))
        (bytesOf "x") 438 clock =
      (Result.fileError, some (Node.file (bytesOf "old") 292), [Event.openFile 292]) := by
  decide

/-- The amended C16 at a file of mode 0600 holding `old`, with the permission
0666 passed and the umask 022: `OpenFile` is called with 0600. -/
theorem WriteSnippet_mode_witness :
    (WriteSnippetRun (OS.quiet 18) (some (Node.file (bytesOf "old") 384)) (bytesOf "x") 438
        clock).2.2 = [Event.openFile 384] :=
  (WriteSnippet_mode (OS.quiet 18) (bytesOf "old") (bytesOf "x") 384 438 420 clock rfl rfl).1.1

/-- C17, as the code has it, for a regular file that is not empty. When the
seek to the last byte fails, or the read of the last byte, `AppendNewLine`
returns that error, as a file error, and nothing is written. When the stat
fails the error is dropped with the test on the last byte: the data is
appended as it is and the call returns nil. In every case the function
returns through `Close`. -/
theorem AppendNewLine_faults (prior data : List Byte) (mode perm : FileMode)
    (cause : OSError) (other other' : Option OSError) (hne : prior ≠ []) :
    AppendNewLine ⟨none, some cause, other⟩ (some (Node.file prior mode)) data perm =
        (some (Error.fileError cause), some (Node.file prior mode)) ∧
      AppendNewLine ⟨none, none, some cause⟩ (some (Node.file prior mode)) data perm =
        (some (Error.fileError cause), some (Node.file prior mode)) ∧
      AppendNewLine ⟨some cause, other, other'⟩ (some (Node.file prior mode)) data perm =
        (none, some (Node.file (prior ++ data) mode)) ∧
      ∀ faults : Faults, ∃ f : File,
        AppendNewLine faults (some (Node.file prior mode)) data perm = f.Close := by
  have hlen : prior.length ≠ 0 := fun h => hne (List.length_eq_zero.mp h)
  have hnn : ¬ ((prior.length : Int) + -1 < 0) := by
    have : 0 < prior.length := List.length_pos.mpr hne
    omega
  refine ⟨?_, ?_, ?_, ?_⟩
  · simp [AppendNewLine, OpenFile, File.Seek, File.Read, File.Write, File.Close, hlen, hne, LF]
  · simp [AppendNewLine, OpenFile, File.Seek, File.Read, File.Write, File.Close, hlen, hne, hnn,
      LF]
  · simp [AppendNewLine, OpenFile, File.Write, File.Close]
  · intro faults
    exact ⟨_, rfl⟩

/-- C17 fails as stated: with a stat that fails on a file holding `a`,
`AppendNewLine` returns nil, and `b` is appended without the line feed the
boundary wants. -/
theorem AppendNewLine_faults_counterexample :
    AppendNewLine ⟨some OSError.EIO, none, none⟩ (some (Node.file (bytesOf "a") 420))
        (bytesOf "b") 384 =
      (none, some (Node.file (bytesOf "ab") 420)) := by
  decide

/-- The amended C17 at a file holding `a`, with the cause `EIO`. -/
theorem AppendNewLine_faults_witness :
    AppendNewLine ⟨none, some OSError.EIO, none⟩ (some (Node.file (bytesOf "a") 420))
        (bytesOf "b") 384 =
      (some (Error.fileError OSError.EIO), some (Node.file (bytesOf "a") 420)) :=
  (AppendNewLine_faults (bytesOf "a") (bytesOf "b") 420 384 OSError.EIO none none
    (by decide)).1

/-- C18: the claim fails on the code when the first data has a line the scanner
cannot buffer. On an empty file, with a line of 70000 bytes `a` for `d1`, the
second call stops scanning at that line, just after the header line of the
first snippet: it keeps that header line, adds a line feed and the new snippet,
and the old body and footer follow. A single call with `d2` leaves the new
snippet alone. -/
theorem WriteSnippet_second_after_long_data :
    WriteSnippet (OS.quiet 18)
        (WriteSnippet (OS.quiet 18) (some (Node.file [] 420)) longLine 384 clock).2
        (bytesOf "x") 384 laterClock =
      (Result.ok, some (Node.file
        (headerLine clock ++ LF :: (wireFormat (bytesOf "x") laterClock ++
          (longLine ++ LF :: (SnippetFooter ++ [LF])))) 420)) ∧
    WriteSnippet (OS.quiet 18) (some (Node.file [] 420)) (bytesOf "x") 384 laterClock =
      (Result.ok, some (Node.file (wireFormat (bytesOf "x") laterClock) 420)) ∧
    headerLine clock ++ LF :: (wireFormat (bytesOf "x") laterClock ++
        (longLine ++ LF :: (SnippetFooter ++ [LF]))) ≠ wireFormat (bytesOf "x") laterClock := by
  refine ⟨WriteSnippet_second_tooLong longLine (bytesOf "x") 420 384 384 clock laterClock
    longLine_length longLine_no_LF, ?_, ?_⟩
  · rw [WriteSnippet_file, if_pos rfl, snippetBlock_eq_wireFormat]
  · intro h
    have h47 := congrArg (List.take 47) h
    rw [List.take_left' (by decide)] at h47
    revert h47
    decide

/-- C19: with force mode off and a regular file that exists and that `os.Stat`
finds, an answer the prompt returns decides as follows: `WriteFile` returns
`ErrFileExists` exactly when the answer, trimmed and lower-cased, is `n` or
`no`; for every other answer, `y` and `yes` and any other string alike, it goes
on to `ioutil.WriteFile` with the data and returns what that returns: nil, with
the file holding the data, when the file can be opened, and the error of the
open, with the file as it was, when it cannot. -/
theorem WriteFile_answer (env : Env) (os : OS) (content data : List Byte) (mode perm : FileMode)
    (filename str : String) (hforce : env.IsForce = false) (hstat : os.statErr = none)
    (hprompt : env.Prompt ("Would you like to overwrite " ++ filename ++ " [y/n]") =
      Except.ok str) :
    ((WriteFile env os (some (Node.file content mode)) filename data perm).1 =
          some ErrFileExists ↔
        (env.ToLower (env.TrimSpace str) = "n" ∨ env.ToLower (env.TrimSpace str) = "no")) ∧
      (¬ (env.ToLower (env.TrimSpace str) = "n" ∨ env.ToLower (env.TrimSpace str) = "no") →
        WriteFile env os (some (Node.file content mode)) filename data perm =
            ((ioutilWriteFile os (some (Node.file content mode)) data perm).1,
              (ioutilWriteFile os (some (Node.file content mode)) data perm).2,
              [Event.prompt ("Would you like to overwrite " ++ filename ++ " [y/n]"),
                Event.writeFile data perm]) ∧
          (os.openErr = none →
            WriteFile env os (some (Node.file content mode)) filename data perm =
              (none, some (Node.file data mode),
                [Event.prompt ("Would you like to overwrite " ++ filename ++ " [y/n]"),
                  Event.writeFile data perm])) ∧
          (∀ cause, os.openErr = some cause →
            WriteFile env os (some (Node.file content mode)) filename data perm =
              (some (Error.pathError cause), some (Node.file content mode),
                [Event.prompt ("Would you like to overwrite " ++ filename ++ " [y/n]"),
                  Event.writeFile data perm]))) := by
  have hw := WriteFile_of_not_no env os content data mode perm filename str hforce hstat hprompt
  refine ⟨⟨?_, ?_⟩, ?_⟩
  · intro h
    by_contra hno
    rw [hw hno] at h
    rcases ioutilWriteFile_cases os (some (Node.file content mode)) data perm with
      ⟨m, h'⟩ | ⟨cause, h'⟩
    · rw [h'] at h
      exact absurd h (by simp)
    · rw [h'] at h
      exact absurd h (by simp [ErrFileExists])
  · intro hno
    rw [WriteFile_of_no env os content data mode perm filename str hforce hstat hprompt hno]
  · intro hno
    refine ⟨hw hno, ?_, ?_⟩
    · intro hopen
      rw [hw hno, ioutilWriteFile_file os content data mode perm hopen]
    · intro cause hopen
      rw [hw hno, ioutilWriteFile_openErr os _ data perm cause hopen]

/-- C19 at a file holding `old`, with the answer `Yes`: the file is
overwritten. -/
theorem WriteFile_answer_witness :
    WriteFile (answering "Yes") (OS.quiet 18) (some (Node.file (bytesOf "old") 420)) "f"
        (bytesOf "new") 384 =
      (none, some (Node.file (bytesOf "new") 420),
        [Event.prompt "Would you like to overwrite f [y/n]", Event.writeFile (bytesOf "new") 384]) :=
  ((WriteFile_answer (answering "Yes") (OS.quiet 18) (bytesOf "old") (bytesOf "new") 420 384 "f"
    "Yes" rfl rfl rfl).2 (by decide)).2.1 rfl

end Utils
